import Mathlib

/-!
# Guiscript core — verification of spec claims

Shallow embedding of the parts of the guiscript UI engine that the frozen
claims talk about, together with proofs settling each claim.

Source files embedded (paths relative to the repository root):
* `src/guiscript/_guis/elements/stacks.py`  — box layout (VStack/HStack)
* `src/guiscript/_guis/elements/element.py` — scene node lifecycle
* `src/guiscript/style.py`                  — style cascade resolver
* `src/guiscript/interact.py`               — interaction state machine

Conventions: pixel coordinates and sizes are `Int` (pygame rects hold ints);
the one float quantity a claim touches (the fill-share division) is `ℚ`.
External collaborators (pygame surfaces/fonts, the event queue, callback
sinks) are represented by the data the core hands them, per spec §6.
-/

namespace Guiscript

/-! ## Stack layout measure pass (claims C1, C8)

`VStack._refresh_stack` (stacks.py lines 96-163).  A child contributes to
the main-axis total using the child's own stack style flags (`fill_y`,
`fill_x`), its `relative_rect` size, its `ignore_stack` flag and its
visibility status. -/

/-- One stack child as seen by `_refresh_stack`: `relative_rect` size,
`ignore_stack` flag, `status.visible`, and the child's `style.stack.fill_x`
/ `style.stack.fill_y` flags. -/
structure StackChild where
  w : Int
  h : Int
  ignore_stack : Bool
  visible : Bool
  fill_x : Bool
  fill_y : Bool
deriving DecidableEq

/-- `True` when the measure loop does not `continue` past the child
(stacks.py line 107: `if child.ignore_stack or not child.status.visible`). -/
def StackChild.active (c : StackChild) : Bool :=
  !(c.ignore_stack || !c.visible)

/-- The main-axis accumulation of `VStack._refresh_stack` (stacks.py lines
106-118), starting from enumerate index `i`.  Fill-main children are
skipped (counted separately); for every other active child the loop adds
`spacing` when the child's *enumerate index* is positive, then its height. -/
def vstackMeasureLoop (spacing : Int) : Nat → List StackChild → Int
  | _, [] => 0
  | i, c :: rest =>
    (if !c.active then 0
     else if c.fill_y then 0
     else (if i > 0 then spacing else 0) + c.h)
    + vstackMeasureLoop spacing (i + 1) rest

/-- The resolved `content_y` of one `VStack._refresh_stack` invocation
(stacks.py lines 100-132): padding on both ends of the measured total,
then the fill-children bump of line 124 (`total_y` raised to the
container height when fill-main children exist).  The x-axis grow/shrink
resize of lines 127-129 keeps the height and cannot change the `content_y`
the outer invocation assigns at line 132, so it does not appear here. -/
def vstackContentY (padding spacing rel_h : Int) (children : List StackChild) : Int :=
  let total_y := padding + vstackMeasureLoop spacing 0 children + padding
  if (children.any fun c => c.active && c.fill_y) && decide (total_y < rel_h) then
    rel_h
  else
    total_y

/-- Sum of the heights of a list of children. -/
def sumH (cs : List StackChild) : Int := cs.foldr (fun c a => c.h + a) 0

/-- Once the enumerate index is positive, every active non-fill child adds
`spacing + h`. -/
theorem vstackMeasureLoop_of_pos (s : Int) (cs : List StackChild) :
    ∀ i : Nat, 0 < i → (∀ c ∈ cs, c.active → c.fill_y = false) →
    vstackMeasureLoop s i cs
      = sumH (cs.filter StackChild.active)
        + s * ((cs.filter StackChild.active).length : Int) := by
  induction cs with
  | nil => intro i _ _; simp [vstackMeasureLoop, sumH]
  | cons c rest ih =>
    intro i hi hfill
    have hrest : ∀ x ∈ rest, x.active → x.fill_y = false := by
      intro x hx; exact hfill x (List.mem_cons_of_mem _ hx)
    rw [vstackMeasureLoop, ih (i + 1) (Nat.succ_pos i) hrest]
    by_cases hact : c.active = true
    · have hcf : c.fill_y = false := hfill c (List.mem_cons_self _ _) hact
      simp [hact, hcf, hi, List.filter_cons, sumH]
      ring
    · have hact' : c.active = false := by
        revert hact; cases c.active <;> simp
      simp [hact', List.filter_cons]

/-- C1 (amended): for a vertical stack whose first child is visible and not
stack-ignoring, and whose visible non-stack-ignoring children are all
fixed-size (no fill-main), one layout pass resolves
`content_y = Σ hᵢ + s·(N−1) + 2·p` where the `hᵢ` are the heights of the
`N` visible non-stack-ignoring children. -/
theorem vstack_content_height_sum (p s rel_h : Int) (c0 : StackChild)
    (rest : List StackChild)
    (h0 : c0.active = true)
    (hfill : ∀ c ∈ c0 :: rest, c.active → c.fill_y = false) :
    vstackContentY p s rel_h (c0 :: rest)
      = sumH ((c0 :: rest).filter StackChild.active)
        + s * ((((c0 :: rest).filter StackChild.active).length : Int) - 1)
        + 2 * p := by
  have hc0f : c0.fill_y = false := hfill c0 (List.mem_cons_self _ _) h0
  have hrest : ∀ x ∈ rest, x.active → x.fill_y = false := by
    intro x hx; exact hfill x (List.mem_cons_of_mem _ hx)
  have hany : ((c0 :: rest).any fun c => c.active && c.fill_y) = false := by
    simp only [List.any_eq_false]
    intro c hc
    by_cases ha : c.active = true
    · simp [ha, hfill c hc ha]
    · have : c.active = false := by revert ha; cases c.active <;> simp
      simp [this]
  have hloop := vstackMeasureLoop_of_pos s rest 1 Nat.one_pos hrest
  simp only [vstackContentY, hany, Bool.false_and, Bool.and_self]
  rw [vstackMeasureLoop, hloop]
  simp [h0, hc0f, List.filter_cons, sumH]
  ring

/-- C1 counterexample input: an invisible first child followed by one
visible fixed child of height 5. -/
def c1Children : List StackChild :=
  [⟨10, 10, false, false, false, false⟩, ⟨10, 5, false, true, false, false⟩]

/-- C1 as stated is false: with padding 2 and spacing 3, the only visible
non-stack-ignoring child has height 5 (`N = 1`), so the claimed value is
`5 + 3·(1−1) + 2·2 = 9`, but the measure loop keys spacing on the raw child
index (stacks.py line 115), so the invisible first child makes the visible
one pay a spacing and `content_y = 12`. -/
theorem c1_counterexample :
    vstackContentY 2 3 0 c1Children = 12
    ∧ ¬ (vstackContentY 2 3 0 c1Children
          = sumH (c1Children.filter StackChild.active)
            + 3 * (((c1Children.filter StackChild.active).length : Int) - 1)
            + 2 * 2) := by
  constructor
  · rfl
  · decide

/-! ## Stack fill distribution (claim C8)

`VStack._refresh_stack` lines 155-163 and `HStack._refresh_stack` lines
311-317: the remaining main-axis space divided among fill-main children. -/

/-- The per-child share `VStack._refresh_stack` assigns to each fill-main
child (stacks.py lines 155-163): remaining space after the fixed total,
scrollbar reservation and inter-fill spacing, *clamped to zero when
negative* (lines 159-160), then divided by the number of fill children. -/
def vstackFillShare (rel_h old_total_y scroll_y spacing : Int) (k : Nat) : ℚ :=
  let space := rel_h - old_total_y - scroll_y - spacing * ((k : Int) - 1)
  let space := if space < 0 then 0 else space
  (space : ℚ) / (k : ℚ)

/-- The per-child share `HStack._refresh_stack` assigns to each fill-main
child (stacks.py lines 311-317): same computation as the vertical stack but
*without* the negative clamp. -/
def hstackFillShare (rel_w old_total_x scroll_x spacing : Int) (k : Nat) : ℚ :=
  let space := rel_w - old_total_x - scroll_x - spacing * ((k : Int) - 1)
  (space : ℚ) / (k : ℚ)

/-- C8: the vertical stack never assigns a negative share, but the
horizontal stack does — with one fixed child of width 300 in a container of
width 100 (padding 0, spacing 0, no scrollbar) and one fill child, the
horizontal stack assigns the fill child a share of −200 where the claim
(and the vertical code) demand 0. -/
theorem hstack_fill_share_negative :
    hstackFillShare 100 300 0 0 1 = -200
    ∧ hstackFillShare 100 300 0 0 1 < 0
    ∧ vstackFillShare 100 300 0 0 1 = 0
    ∧ ∀ (a b c d : Int) (k : Nat), 0 ≤ vstackFillShare a b c d k := by
  refine ⟨by norm_num [hstackFillShare], by norm_num [hstackFillShare],
    by norm_num [vstackFillShare], ?_⟩
  intro a b c d k
  unfold vstackFillShare
  set space := a - b - c - d * ((k : Int) - 1) with hs
  by_cases h : space < 0
  · simp only [if_pos h]
    positivity
  · simp only [if_neg h]
    push_neg at h
    have : (0 : ℚ) ≤ (space : ℚ) := by exact_mod_cast h
    positivity

/-! ## Style cascade resolver (claims C2, C10)

`style.py`: `UIStyles.get_style_of_type` (lines 198-227) and
`UIStyles.apply_style_properties` (lines 229-239).  Python attribute
dictionaries are embedded as association lists `List (String × Val)`;
`hasattr`/`setattr` become lookup/overwrite on them.  The pygame font
object rebuilt by `build_font` is external (spec §6 text/font backend) and
is represented by the data the core derives it from: the current
`font_name` and `font_size` values. -/

/-- A style property value (colors, ints, strings, flags, the `None`
placeholder, point lists, and the font object as its determining data). -/
inductive Val where
  | int (i : Int)
  | color (r g b : Nat)
  | str (s : String)
  | bool (b : Bool)
  | none
  | font (name size : Val)
  | pts (l : List (Int × Int))
deriving DecidableEq

/-- Attribute dictionary of one component style object. -/
abbrev AttrMap := List (String × Val)

/-- Python `getattr` (used by `build_font` for `font_name`/`font_size`). -/
def getAttr (name : String) : AttrMap → Val
  | [] => Val.none
  | (n, v) :: rest => if n == name then v else getAttr name rest

/-- Python `hasattr` on a component style object. -/
def hasAttr (name : String) (m : AttrMap) : Bool :=
  m.any (fun p => p.1 == name)

/-- Python `setattr` on a component style object (overwrite in place). -/
def setAttr (name : String) (v : Val) : AttrMap → AttrMap
  | [] => []
  | (n, w) :: rest => if n == name then (n, v) :: rest else (n, w) :: setAttr name v rest

/-- `UITextStyle.build_font` (style.py lines 89-97): the font object is
rebuilt from the current `font_name` and `font_size` attributes (the
pygame construction itself is the external font backend). -/
def buildFont (text : AttrMap) : AttrMap :=
  setAttr "font" (Val.font (getAttr "font_name" text) (getAttr "font_size" text)) text

/-- The seven component attribute sets of `UIStyle` (style.py lines
12-135), with the defaults assigned in each `__init__`. -/
structure MStyle where
  stack : AttrMap
  bg : AttrMap
  image : AttrMap
  shape : AttrMap
  text : AttrMap
  icon : AttrMap
  outline : AttrMap
deriving DecidableEq

/-- `_default_style()` (style.py line 137): a fresh `UIStyle()` with every
`__init__` default.  `font_align` holds `pygame.FONT_CENTER = 1`. -/
def defaultStyle : MStyle where
  stack := [("spacing", .int 5), ("padding", .int 7), ("scroll_x", .bool true),
    ("scroll_y", .bool true), ("grow_x", .bool false), ("grow_y", .bool false),
    ("shrink_x", .bool false), ("shrink_y", .bool false), ("fill_x", .bool false),
    ("fill_y", .bool true), ("anchor", .str "middle"), ("align", .str "middle"),
    ("scrollbar_size", .int 10)]
  bg := [("enabled", .bool true), ("color", .color 25 25 25), ("border_radius", .int 7)]
  image := [("enabled", .bool true), ("image", .none), ("padding", .int 5),
    ("border_radius", .int 7), ("stretch_x", .bool false), ("stretch_y", .bool false),
    ("fill", .bool false), ("border_size", .int 0), ("outline_width", .int 0),
    ("outline_color", .color 50 50 50)]
  shape := [("enabled", .bool true), ("color", .color 0 120 255),
    ("outline_width", .int 0), ("type", .str "rect"), ("padding", .int 8),
    ("rect_border_radius", .int 7), ("polygon_points", .pts []),
    ("ellipse_padding_x", .int 10), ("ellipse_padding_y", .int 20)]
  text := [("enabled", .bool true), ("text", .str ""), ("color", .color 255 255 255),
    ("bg_color", .none), ("padding", .int 5), ("y_padding", .int 1),
    ("align", .str "center"), ("antialas", .bool true), ("font_name", .str "Segoe UI"),
    ("font_size", .int 22), ("sysfont", .bool true), ("font_align", .int 1),
    ("bold", .bool false), ("italic", .bool false), ("underline", .bool false),
    ("strikethrough", .bool false), ("font", .font (.str "Segoe UI") (.int 22))]
  icon := [("enabled", .bool true), ("name", .none), ("scale", .int 1),
    ("padding", .int 5), ("align", .str "center")]
  outline := [("enabled", .bool true), ("color", .color 50 50 50), ("width", .int 1),
    ("border_radius", .int 7)]

/-- `_default_hover_style()` (style.py lines 141-144): the default with
`bg.color = (32, 32, 32)`. -/
def defaultHoverStyle : MStyle :=
  { defaultStyle with bg := setAttr "color" (.color 32 32 32) defaultStyle.bg }

/-- `_default_press_style()` (style.py lines 147-150): the default with
`bg.color = (17, 17, 17)`. -/
def defaultPressStyle : MStyle :=
  { defaultStyle with bg := setAttr "color" (.color 17 17 17) defaultStyle.bg }

/-- `UIStyleHolder` (style.py lines 153-162): one registered style rule.
`properties` maps component names to attribute/value pairs. -/
structure UIStyleHolder where
  properties : List (String × AttrMap)
  style_type : String
  style_target : String
  target_id : String
deriving DecidableEq

/-- Applying one component's declared properties in order: unknown
attribute names raise a fatal style error (style.py lines 235-238). -/
def applyComp : AttrMap → AttrMap → Except String AttrMap
  | [], comp => .ok comp
  | (name, v) :: rest, comp =>
    if hasAttr name comp then applyComp rest (setAttr name v comp)
    else .error name

/-- `properties.get(comp_name)`: the declared pairs for one component. -/
def getProp (properties : List (String × AttrMap)) (comp : String) : Option AttrMap :=
  (properties.find? (fun p => p.1 == comp)).map (·.2)

/-- `UIStyles.apply_style_properties` (style.py lines 229-239): the
components are visited in the fixed order `stack, bg, image, shape, text,
icon, outline`; each declared property must exist on the component; the
text font is rebuilt at the end. -/
def applyStyleProperties (properties : List (String × AttrMap)) (style : MStyle) :
    Except String MStyle := do
  let style ← match getProp properties "stack" with
    | some ps => do pure { style with stack := (← applyComp ps style.stack) }
    | Option.none => pure style
  let style ← match getProp properties "bg" with
    | some ps => do pure { style with bg := (← applyComp ps style.bg) }
    | Option.none => pure style
  let style ← match getProp properties "image" with
    | some ps => do pure { style with image := (← applyComp ps style.image) }
    | Option.none => pure style
  let style ← match getProp properties "shape" with
    | some ps => do pure { style with shape := (← applyComp ps style.shape) }
    | Option.none => pure style
  let style ← match getProp properties "text" with
    | some ps => do pure { style with text := (← applyComp ps style.text) }
    | Option.none => pure style
  let style ← match getProp properties "icon" with
    | some ps => do pure { style with icon := (← applyComp ps style.icon) }
    | Option.none => pure style
  let style ← match getProp properties "outline" with
    | some ps => do pure { style with outline := (← applyComp ps style.outline) }
    | Option.none => pure style
  pure { style with text := buildFont style.text }

/-- The identity facts the cascade reads off an element (style.py line
207). -/
structure ElemIdent where
  element_types : List String
  style_id : String
  element_id : String

/-- Python `dict.fromkeys`: key order of first occurrence, duplicates
dropped (style.py lines 209-210). -/
def dedupKeys : List String → List String
  | [] => []
  | k :: rest => k :: (dedupKeys rest).filter (fun x => !(x == k))

/-- Infix test on character lists. -/
def infixOf (sub : List Char) : List Char → Bool
  | [] => sub.isEmpty
  | c :: rest => sub.isPrefixOf (c :: rest) || infixOf sub rest

/-- Python `sub in s` on strings: substring test (style.py line 216). -/
def strContains (sub s : String) : Bool :=
  infixOf sub.data s.data

/-- Appending a holder to the bucket of its element type. -/
def addToBucket (k : String) (h : UIStyleHolder) :
    List (String × List UIStyleHolder) → List (String × List UIStyleHolder)
  | [] => []
  | (n, l) :: rest =>
    if n == k then (n, l ++ [h]) :: rest else (n, l) :: addToBucket k h rest

/-- `target_id in el_type_styles`: key membership. -/
def hasKey (k : String) (bs : List (String × List UIStyleHolder)) : Bool :=
  bs.any (fun p => p.1 == k)

/-- The holder-categorisation loop of `get_style_of_type` (style.py lines
211-219): a holder of the wrong interaction state is skipped; otherwise it
is appended to its element-type bucket, to the style-id list (substring
match against the element's style id), or to the element-id list (exact
match). -/
def categorizeLoop (type_ style_id el_id : String) :
    List UIStyleHolder →
    List (String × List UIStyleHolder) × List UIStyleHolder × List UIStyleHolder →
    List (String × List UIStyleHolder) × List UIStyleHolder × List UIStyleHolder
  | [], acc => acc
  | h :: rest, (bs, sid, eid) =>
    if h.style_type != type_ then
      categorizeLoop type_ style_id el_id rest (bs, sid, eid)
    else if h.style_target == "element_type" && hasKey h.target_id bs then
      categorizeLoop type_ style_id el_id rest (addToBucket h.target_id h bs, sid, eid)
    else if h.style_target == "style_id" && strContains h.target_id style_id then
      categorizeLoop type_ style_id el_id rest (bs, sid ++ [h], eid)
    else if h.style_target == "element_id" && (h.target_id == el_id) then
      categorizeLoop type_ style_id el_id rest (bs, sid, eid ++ [h])
    else
      categorizeLoop type_ style_id el_id rest (bs, sid, eid)

/-- Applying a list of holders in order (style.py lines 220-226, inner
loops). -/
def applyHolderList (l : List UIStyleHolder) (s : MStyle) : Except String MStyle :=
  l.foldlM (fun st h => applyStyleProperties h.properties st) s

/-- Applying every element-type bucket in key order. -/
def applyBuckets (bs : List (String × List UIStyleHolder)) (s : MStyle) :
    Except String MStyle :=
  bs.foldlM (fun st p => applyHolderList p.2 st) s

/-- The baseline style per interaction state (style.py lines 200-206); an
unknown state leaves `style` unbound in the source, so it is `none` here. -/
def baseStyleFor : String → Option MStyle
  | "normal" => some defaultStyle
  | "hover" => some defaultHoverStyle
  | "press" => some defaultPressStyle
  | _ => Option.none

/-- `UIStyles.get_style_of_type` (style.py lines 198-227): baseline, then
categorise all registered holders, then apply element-type buckets (in the
element's tag order), the style-id list, and the element-id list. -/
def getStyleOfType (el : ElemIdent) (type_ : String) (holders : List UIStyleHolder) :
    Option (Except String MStyle) :=
  (baseStyleFor type_).map (fun style0 =>
    let keys := dedupKeys el.element_types
    let init := keys.map (fun k => (k, ([] : List UIStyleHolder)))
    let (bs, sid, eid) := categorizeLoop type_ el.style_id el.element_id holders (init, [], [])
    do
      let style1 ← applyBuckets bs style0
      let style2 ← applyHolderList sid style1
      let style3 ← applyHolderList eid style2
      pure style3)

/-- The background color of a successfully resolved style. -/
def bgColor (r : Option (Except String MStyle)) : Option Val :=
  match r with
  | some (.ok st) => some (getAttr "color" st.bg)
  | _ => Option.none

/-- A registered rule on the element type `"button"` setting the
background color. -/
def typeRule (st : String) (c : Val) : UIStyleHolder :=
  ⟨[("bg", [("color", c)])], st, "element_type", "button"⟩

/-- A registered rule on the element id `"submit"` setting the background
color. -/
def elemIdRule (st : String) (c : Val) : UIStyleHolder :=
  ⟨[("bg", [("color", c)])], st, "element_id", "submit"⟩

/-- The net effect of applying a bg-color rule. -/
def setBgColor (c : Val) (s : MStyle) : MStyle :=
  { s with bg := setAttr "color" c s.bg, text := buildFont s.text }

theorem hasAttr_setAttr (n m : String) (v : Val) (l : AttrMap) :
    hasAttr n (setAttr m v l) = hasAttr n l := by
  induction l with
  | nil => rfl
  | cons p rest ih =>
    obtain ⟨a, w⟩ := p
    by_cases h : a == m
    · simp [setAttr, hasAttr, h]
    · simp only [setAttr, if_neg h, hasAttr, List.any_cons] at ih ⊢
      rw [ih]

theorem getAttr_setAttr_self (n : String) (v : Val) (l : AttrMap)
    (h : hasAttr n l = true) : getAttr n (setAttr n v l) = v := by
  induction l with
  | nil => simp [hasAttr] at h
  | cons p rest ih =>
    obtain ⟨a, w⟩ := p
    by_cases ha : a == n
    · simp [setAttr, getAttr, ha]
    · simp only [setAttr, if_neg ha, getAttr, ha, if_neg ha]
      simp only [hasAttr, List.any_cons, ha, Bool.false_or] at h
      exact ih (by simpa [hasAttr] using h)

/-- Applying a rule whose properties are exactly a bg color overwrites the
background color and rebuilds the font, and cannot fail as long as the bg
component has a `color` attribute. -/
theorem applyStyleProperties_colorRule (c : Val) (s : MStyle)
    (h : hasAttr "color" s.bg = true) :
    applyStyleProperties [("bg", [("color", c)])] s = .ok (setBgColor c s) := by
  simp [applyStyleProperties, getProp, List.find?, applyComp, h, setBgColor, Bind.bind,
    Except.bind, pure, Except.pure]

theorem mem_dedupKeys (x : String) (l : List String) : x ∈ dedupKeys l ↔ x ∈ l := by
  induction l with
  | nil => simp [dedupKeys]
  | cons k rest ih =>
    by_cases hx : x = k
    · subst hx; simp [dedupKeys]
    · simp [dedupKeys, List.mem_filter, ih, hx]

theorem hasKey_map_of_mem (l : List String) (k : String) (h : k ∈ l) :
    hasKey k (l.map fun x => (x, ([] : List UIStyleHolder))) = true := by
  induction l with
  | nil => cases h
  | cons x rest ih =>
    rcases List.mem_cons.mp h with h1 | h1
    · subst h1; simp [hasKey]
    · simp only [List.map_cons, hasKey, List.any_cons, Bool.or_eq_true]
      exact Or.inr (by simpa [hasKey] using ih h1)

/-- Categorising the two C2 rules, in either registration order, puts the
type rule in the `"button"` bucket and the element-id rule in the
element-id list. -/
theorem categorize_c2 (type_ : String) (cA cB : Val)
    (bs : List (String × List UIStyleHolder)) (hkey : hasKey "button" bs = true) :
    categorizeLoop type_ "" "submit" [typeRule type_ cA, elemIdRule type_ cB] (bs, [], [])
      = (addToBucket "button" (typeRule type_ cA) bs, [], [elemIdRule type_ cB])
    ∧ categorizeLoop type_ "" "submit" [elemIdRule type_ cB, typeRule type_ cA] (bs, [], [])
      = (addToBucket "button" (typeRule type_ cA) bs, [], [elemIdRule type_ cB]) := by
  constructor <;>
    simp [categorizeLoop, typeRule, elemIdRule, hkey]

/-- Folding over buckets that are all empty leaves the style unchanged. -/
theorem applyBuckets_empty (keys : List String) (s : MStyle) :
    applyBuckets (keys.map fun x => (x, ([] : List UIStyleHolder))) s = .ok s := by
  induction keys generalizing s with
  | nil => rfl
  | cons x rest ih => exact ih s

/-- Folding the buckets when a single holder sits in the bucket of key `k`
and every other bucket is empty applies exactly that holder. -/
theorem applyBuckets_addToBucket (keys : List String) (k : String)
    (h : UIStyleHolder) (s0 : MStyle) (hmem : k ∈ keys) :
    applyBuckets (addToBucket k h (keys.map fun x => (x, ([] : List UIStyleHolder))) ) s0
      = applyStyleProperties h.properties s0 := by
  induction keys generalizing s0 with
  | nil => cases hmem
  | cons x rest ih =>
    by_cases hx : x == k
    · simp only [List.map_cons, addToBucket, if_pos hx]
      have hstep :
          applyBuckets ((x, [] ++ [h]) :: List.map (fun x => (x, ([] : List UIStyleHolder))) rest) s0
          = Except.bind (Except.bind (applyStyleProperties h.properties s0)
              (fun s' => Except.ok s'))
              (fun s' => applyBuckets (List.map (fun x => (x, ([] : List UIStyleHolder))) rest) s') :=
        rfl
      rw [hstep]
      cases happ : applyStyleProperties h.properties s0 with
      | error e => rfl
      | ok s1 => exact applyBuckets_empty rest s1
    · have hmem' : k ∈ rest := by
        rcases List.mem_cons.mp hmem with h1 | h1
        · subst h1; simp at hx
        · exact h1
      simp only [List.map_cons, addToBucket, if_neg hx]
      exact ih s0 hmem'

/-- Resolving against exactly the two C2 rules, in either order, yields the
base style with the type rule's color applied first and the element-id
rule's color applied second. -/
theorem getStyleOfType_c2 (ts : List String) (st : String) (cA cB : Val) (s0 : MStyle)
    (hb : baseStyleFor st = some s0)
    (hkeys : "button" ∈ dedupKeys ts)
    (hcol : hasAttr "color" s0.bg = true) :
    getStyleOfType ⟨ts, "", "submit"⟩ st [typeRule st cA, elemIdRule st cB]
      = some (.ok (setBgColor cB (setBgColor cA s0)))
    ∧ getStyleOfType ⟨ts, "", "submit"⟩ st [elemIdRule st cB, typeRule st cA]
      = some (.ok (setBgColor cB (setBgColor cA s0))) := by
  have hkey : hasKey "button" ((dedupKeys ts).map fun k => (k, ([] : List UIStyleHolder)))
      = true := hasKey_map_of_mem _ _ hkeys
  have hcol2 : hasAttr "color" (setBgColor cA s0).bg = true := by
    simpa [setBgColor, hasAttr_setAttr] using hcol
  constructor
  · unfold getStyleOfType
    rw [hb]
    simp only [Option.map_some']
    rw [(categorize_c2 st cA cB _ hkey).1]
    rw [applyBuckets_addToBucket _ _ _ _ hkeys]
    rw [show (typeRule st cA).properties = [("bg", [("color", cA)])] from rfl]
    rw [applyStyleProperties_colorRule cA s0 hcol]
    simp only [applyHolderList, List.foldlM, Bind.bind, Except.bind, pure, Except.pure,
      elemIdRule]
    rw [applyStyleProperties_colorRule cB _ hcol2]
  · unfold getStyleOfType
    rw [hb]
    simp only [Option.map_some']
    rw [(categorize_c2 st cA cB _ hkey).2]
    rw [applyBuckets_addToBucket _ _ _ _ hkeys]
    rw [show (typeRule st cA).properties = [("bg", [("color", cA)])] from rfl]
    rw [applyStyleProperties_colorRule cA s0 hcol]
    simp only [applyHolderList, List.foldlM, Bind.bind, Except.bind, pure, Except.pure,
      elemIdRule]
    rw [applyStyleProperties_colorRule cB _ hcol2]

/-- C2: for a node of type `"button"` with element id `"submit"`, a rule on
the element id `"submit"` setting the background color overrides a rule on
the type `"button"` setting a different background color, in both
registration orders, for any of the three interaction states. -/
theorem style_cascade_element_id_wins (ts : List String) (st : String) (cA cB : Val)
    (hbtn : "button" ∈ ts)
    (hst : st = "normal" ∨ st = "hover" ∨ st = "press")
    (_hne : cA ≠ cB) :
    bgColor (getStyleOfType ⟨ts, "", "submit"⟩ st [typeRule st cA, elemIdRule st cB])
      = some cB
    ∧ bgColor (getStyleOfType ⟨ts, "", "submit"⟩ st [elemIdRule st cB, typeRule st cA])
      = some cB := by
  have hkeys : "button" ∈ dedupKeys ts := (mem_dedupKeys _ _).mpr hbtn
  have hfinal : ∀ s0 : MStyle, hasAttr "color" s0.bg = true →
      bgColor (some (.ok (setBgColor cB (setBgColor cA s0)))) = some cB := by
    intro s0 hcol
    have hcol2 : hasAttr "color" (setAttr "color" cA s0.bg) = true := by
      rw [hasAttr_setAttr]; exact hcol
    simp only [bgColor, setBgColor]
    rw [getAttr_setAttr_self _ _ _ hcol2]
  rcases hst with h | h | h <;> subst h
  · have hc := getStyleOfType_c2 ts "normal" cA cB defaultStyle rfl hkeys (by decide)
    exact ⟨hc.1 ▸ hfinal defaultStyle (by decide), hc.2 ▸ hfinal defaultStyle (by decide)⟩
  · have hc := getStyleOfType_c2 ts "hover" cA cB defaultHoverStyle rfl hkeys (by decide)
    exact ⟨hc.1 ▸ hfinal defaultHoverStyle (by decide),
      hc.2 ▸ hfinal defaultHoverStyle (by decide)⟩
  · have hc := getStyleOfType_c2 ts "press" cA cB defaultPressStyle rfl hkeys (by decide)
    exact ⟨hc.1 ▸ hfinal defaultPressStyle (by decide),
      hc.2 ▸ hfinal defaultPressStyle (by decide)⟩

/-- Witness for C1's amended theorem: two visible fixed children of heights
5 and 7, spacing 2, padding 1 give `content_y = 5 + 7 + 2·1 + 2·1 = 16`. -/
theorem vstack_content_height_sum_witness :
    vstackContentY 1 2 0
        [⟨10, 5, false, true, false, false⟩, ⟨10, 7, false, true, false, false⟩]
      = sumH (([⟨10, 5, false, true, false, false⟩,
            ⟨10, 7, false, true, false, false⟩] : List StackChild).filter StackChild.active)
        + 2 * (((([⟨10, 5, false, true, false, false⟩,
            ⟨10, 7, false, true, false, false⟩] : List StackChild).filter
              StackChild.active).length : Int) - 1)
        + 2 * 1 :=
  vstack_content_height_sum 1 2 0 ⟨10, 5, false, true, false, false⟩
    [⟨10, 7, false, true, false, false⟩] (by decide) (by decide)

/-- Witness for C2: concrete tags, state `"normal"`, red type rule vs green
element-id rule, both orders resolve to green. -/
theorem style_cascade_element_id_wins_witness :
    bgColor (getStyleOfType ⟨["element", "button"], "", "submit"⟩ "normal"
        [typeRule "normal" (Val.color 255 0 0), elemIdRule "normal" (Val.color 0 255 0)])
      = some (Val.color 0 255 0)
    ∧ bgColor (getStyleOfType ⟨["element", "button"], "", "submit"⟩ "normal"
        [elemIdRule "normal" (Val.color 0 255 0), typeRule "normal" (Val.color 255 0 0)])
      = some (Val.color 0 255 0) :=
  style_cascade_element_id_wins ["element", "button"] "normal"
    (Val.color 255 0 0) (Val.color 0 255 0) (by decide) (Or.inl rfl) (by decide)

/-! ## Absolute rect position (claim C3)

`Element.get_absolute_topleft` (element.py lines 277-279),
`Element._update_absolute_rect_pos` (lines 857-862),
`Element.set_render_offset` (lines 717-721). -/

/-- Positional state of one node: `relative_rect.topleft`,
`absolute_rect.topleft`, `static_rect.topleft`, the scroll-ignore flag, the
render offset, and the dirty flag. -/
structure PosElem where
  rel : Int × Int
  abs : Int × Int
  static_topleft : Int × Int
  ignore_scroll : Bool
  render_offset : Int × Int
  dirty : Bool
deriving DecidableEq

/-- `Element.get_absolute_topleft` (element.py line 279): parent's absolute
topleft plus this node's relative topleft, minus the root's scroll offset
when scroll-ignoring, else the parent's scroll offset.  The render offset
does not appear in the source expression. -/
def getAbsoluteTopleft (parent_abs parent_scroll root_scroll : Int × Int)
    (e : PosElem) : Int × Int :=
  let scroll := if e.ignore_scroll then root_scroll else parent_scroll
  (parent_abs.1 + e.rel.1 - scroll.1, parent_abs.2 + e.rel.2 - scroll.2)

/-- `Element._update_absolute_rect_pos` (element.py lines 857-862) acting
on one node: `absolute_rect.topleft` takes the freshly computed absolute
topleft, `static_rect.topleft` is zeroed and the node is marked dirty.
The recursion into the children (line 860-861) repeats this same per-node
update with that child's own parent data. -/
def updateAbsoluteRectPos (parent_abs parent_scroll root_scroll : Int × Int)
    (e : PosElem) : PosElem :=
  { e with abs := getAbsoluteTopleft parent_abs parent_scroll root_scroll e,
           static_topleft := (0, 0), dirty := true }

/-- `Element.set_render_offset` (element.py lines 717-721): stores the
offset and marks the node dirty — nothing else. -/
def setRenderOffset (e : PosElem) (ro : Int × Int) : PosElem :=
  { e with render_offset := ro, dirty := true }

/-- C3 counterexample node: relative topleft (10, 10), render offset
(5, 5), not scroll-ignoring. -/
def c3Elem : PosElem :=
  { rel := (10, 10), abs := (0, 0), static_topleft := (0, 0),
    ignore_scroll := false, render_offset := (5, 5), dirty := false }

/-- C3 as stated is false: with parent absolute topleft (0, 0) and zero
scroll offsets, the refreshed absolute topleft is (10, 10) — the claimed
value parent + relative − scroll + render offset = (15, 15) is not what the
code computes, because `get_absolute_topleft` never adds the render
offset. -/
theorem c3_counterexample :
    (updateAbsoluteRectPos (0, 0) (0, 0) (0, 0) c3Elem).abs = (10, 10)
    ∧ ¬ ((updateAbsoluteRectPos (0, 0) (0, 0) (0, 0) c3Elem).abs
          = (0 + 10 - 0 + 5, 0 + 10 - 0 + 5)) := by
  decide

/-- C3 (amended): after `_update_absolute_rect_pos`, the node's absolute
topleft equals parent's absolute topleft plus the node's relative topleft
minus the applicable scroll offset (parent's, or root's when
scroll-ignoring) — with no render-offset term: changing the render offset
through `set_render_offset` leaves the refreshed absolute rect unchanged
(the offset only shifts where the surface is blitted during render,
element.py lines 1075-1081). -/
theorem absolute_rect_pos_formula (pa ps rs : Int × Int) (e : PosElem) (ro : Int × Int) :
    ((updateAbsoluteRectPos pa ps rs e).abs
      = (pa.1 + e.rel.1 - (if e.ignore_scroll then rs else ps).1,
         pa.2 + e.rel.2 - (if e.ignore_scroll then rs else ps).2))
    ∧ (updateAbsoluteRectPos pa ps rs (setRenderOffset e ro)).abs
      = (updateAbsoluteRectPos pa ps rs e).abs := by
  constructor
  · rfl
  · rfl

/-! ## Dirty propagation (claim C9)

`Element.set_dirty` (element.py lines 525-531). -/

/-- The recursive `self.parent.set_dirty()` call of element.py line 530,
which always passes the default `dirty = True`, acting on the chain of
dirty flags from a node's parent up to the root (successive ancestors;
last entry the root).  Modelled from the spec: the root element's own
`set_dirty` (root.py is not among the sources) ends the chain, per spec §3
"dirty == true on a node implies dirty == true on every ancestor up to the
root" and §5 "dirty propagation is monotonic upward". -/
def setDirtyUp : List Bool → List Bool
  | [] => []
  | d :: rest => if true = d then d :: rest else true :: setDirtyUp rest

/-- `Element.set_dirty(dirty)` (element.py lines 525-531) on the chain of
dirty flags from the node itself up to the root: an unchanged flag returns
immediately; otherwise the flag is written and the parent chain is marked
via `setDirtyUp`. -/
def setDirty (dirty : Bool) : List Bool → List Bool
  | [] => []
  | d :: rest => if dirty = d then d :: rest else dirty :: setDirtyUp rest

/-- The spec invariant (§3): a dirty node's ancestors are all dirty, i.e.
along the chain `true` entries are upward-closed. -/
def upwardClosed : List Bool → Bool
  | [] => true
  | [_] => true
  | a :: b :: rest => (!a || b) && upwardClosed (b :: rest)

theorem upwardClosed_tail (d : Bool) (rest : List Bool)
    (h : upwardClosed (d :: rest) = true) : upwardClosed rest = true := by
  cases rest with
  | nil => rfl
  | cons b more =>
    simp only [upwardClosed, Bool.and_eq_true] at h
    exact h.2

theorem all_true_of_upwardClosed (chain : List Bool)
    (h : upwardClosed chain = true) (hh : chain.head? = some true) :
    ∀ x ∈ chain, x = true := by
  induction chain with
  | nil => intro x hx; cases hx
  | cons d rest ih =>
    intro x hx
    have hd : d = true := by simpa using hh
    subst hd
    rcases List.mem_cons.mp hx with h1 | h1
    · exact h1
    · cases rest with
      | nil => cases h1
      | cons b more =>
        have hb : b = true ∧ upwardClosed (b :: more) = true := by
          simpa [upwardClosed] using h
        exact ih hb.2 (by simp [hb.1]) x h1

theorem setDirtyUp_all (chain : List Bool) (h : upwardClosed chain = true) :
    ∀ x ∈ setDirtyUp chain, x = true := by
  induction chain with
  | nil => intro x hx; cases hx
  | cons d rest ih =>
    intro x hx
    by_cases hd : d = true
    · subst hd
      simp only [setDirtyUp, if_pos rfl] at hx
      exact all_true_of_upwardClosed _ h (by simp) x hx
    · have hd' : d = false := by revert hd; cases d <;> simp
      subst hd'
      simp only [setDirtyUp] at hx
      rcases List.mem_cons.mp (by simpa using hx) with h1 | h1
      · exact h1
      · exact ih (upwardClosed_tail _ _ h) x h1

/-- C9: on a chain satisfying the upward-closed dirty invariant,
`set_dirty(True)` on the bottom node leaves every node of the chain (the
node and all its ancestors up to the root) dirty; the chain's shape is
untouched (the walk only flips flags, never restructures, and the
structural recursion witnesses termination); and calling it on an
already-dirty node returns with no state change at all. -/
theorem set_dirty_marks_ancestors (chain : List Bool)
    (h : upwardClosed chain = true) :
    (∀ x ∈ setDirty true chain, x = true)
    ∧ (setDirty true chain).length = chain.length
    ∧ (∀ rest, chain = true :: rest → setDirty true chain = chain) := by
  refine ⟨?_, ?_, ?_⟩
  · intro x hx
    cases chain with
    | nil => cases hx
    | cons d rest =>
      by_cases hd : true = d
      · simp only [setDirty, if_pos hd] at hx
        exact all_true_of_upwardClosed _ h (by simp [hd.symm]) x hx
      · simp only [setDirty, if_neg hd] at hx
        rcases List.mem_cons.mp hx with h1 | h1
        · exact h1
        · exact setDirtyUp_all _ (upwardClosed_tail _ _ h) x h1
  · cases chain with
    | nil => rfl
    | cons d rest =>
      by_cases hd : true = d
      · simp [setDirty, hd]
      · simp only [setDirty, if_neg hd, List.length_cons]
        have : ∀ l : List Bool, (setDirtyUp l).length = l.length := by
          intro l
          induction l with
          | nil => rfl
          | cons a more ihl =>
            cases a
            · simp [setDirtyUp, ihl]
            · simp [setDirtyUp]
        simp [this]
  · intro rest hr
    subst hr
    simp [setDirty]

/-- Witness for C9: chain `[false, false, true]` (leaf clean, parent clean,
root dirty) satisfies the invariant; marking the leaf dirties the whole
chain, preserves its length, and the no-op clause holds vacuously. -/
theorem set_dirty_marks_ancestors_witness :
    (∀ x ∈ setDirty true [false, false, true], x = true)
    ∧ (setDirty true [false, false, true]).length = ([false, false, true] : List Bool).length
    ∧ (∀ rest, ([false, false, true] : List Bool) = true :: rest →
        setDirty true [false, false, true] = [false, false, true]) :=
  set_dirty_marks_ancestors [false, false, true] (by decide)

/-! ## set_element_id (claim C10)

`Element.set_element_id` (element.py lines 655-659) against the class
definitions in style.py. -/

/-- The attributes defined on class `UIStyle` (style.py lines 124-135):
only the constructor.  In particular `get_style_group` is absent. -/
def uistyleClassAttrs : List String := ["__init__"]

/-- The attributes defined on class `UIStyles` (style.py lines 178-239):
the rule registry and the four classmethods — including
`get_style_group` (lines 190-196). -/
def uistylesClassAttrs : List String :=
  ["styles", "add_style", "add_styles", "get_style_group", "get_style_of_type",
   "apply_style_properties"]

/-- The element state `set_element_id` can touch: its element id and its
current style group (an opaque token standing for the group object). -/
structure IdElem where
  element_id : String
  style_group : Nat
deriving DecidableEq

/-- `Element.set_element_id` (element.py lines 655-659): the first
statement overwrites `element_id`; the second evaluates
`UIStyle.get_style_group`, an attribute lookup on class `UIStyle` — that
lookup raises `AttributeError` (the classmethod lives on `UIStyles`), so
the style group is never recomputed.  The result pairs the post-mutation
state with the outcome of the second statement. -/
def setElementId (e : IdElem) (new_id : String) : IdElem × Except String Unit :=
  let e := { e with element_id := new_id }
  if uistyleClassAttrs.contains "get_style_group" then
    (e, .ok ())
  else
    (e, .error "AttributeError")

/-- C10: `set_element_id` always overwrites the element id, never changes
the style group, and raises `AttributeError` — because `get_style_group`
is an attribute of `UIStyles`, not of `UIStyle`. -/
theorem set_element_id_mutates_then_raises (e : IdElem) (new_id : String) :
    (setElementId e new_id).1.element_id = new_id
    ∧ (setElementId e new_id).1.style_group = e.style_group
    ∧ (setElementId e new_id).2 = .error "AttributeError"
    ∧ uistyleClassAttrs.contains "get_style_group" = false
    ∧ uistylesClassAttrs.contains "get_style_group" = true := by
  refine ⟨rfl, rfl, rfl, by decide, by decide⟩

/-! ## Hit-testing raycast (claim C5)

`UIInteract.raycast` (interact.py lines 194-213). -/

/-- What the raycast reads off one element: its absolute rect, visibility,
raycast-opt-out flag and z index. -/
structure RInfo where
  x : Int
  y : Int
  w : Int
  h : Int
  visible : Bool
  ignore_raycast : Bool
  z_index : Int
deriving DecidableEq

/-- The rendered tree the raycast searches. -/
inductive RTree where
  | mk (info : RInfo) (children : List RTree)

def RTree.info : RTree → RInfo
  | .mk i _ => i

def RTree.children : RTree → List RTree
  | .mk _ cs => cs

/-- pygame `Rect.collidepoint`: inclusive on the left/top edges, exclusive
on the right/bottom edges. -/
def collidepoint (px py : Int) (i : RInfo) : Bool :=
  decide (i.x ≤ px) && decide (px < i.x + i.w)
  && decide (i.y ≤ py) && decide (py < i.y + i.h)

/-- Stable insertion for an ascending z sort: a node goes in front of the
first already-placed node with z index not smaller than its own, so nodes
with equal z keep their original relative order (Python `sorted` is
stable). -/
def insertByZ (t : RTree) : List RTree → List RTree
  | [] => [t]
  | u :: us =>
    if t.info.z_index ≤ u.info.z_index then t :: u :: us else u :: insertByZ t us

/-- Stable ascending sort by z index (Python `sorted(..., key=z_index)`). -/
def sortByZ : List RTree → List RTree
  | [] => []
  | t :: ts => insertByZ t (sortByZ ts)

/-- `reversed(sorted(start_parent.children, key=lambda el: el.z_index))`
(interact.py line 203): descending z. -/
def sortDescZ (ts : List RTree) : List RTree :=
  (sortByZ ts).reverse

/-- The child loop of `raycast` (interact.py lines 203-210): skip children
that miss the point, are invisible, or opt out; on the first hit, a child
with children is recursed into (`rc`), and the recursion's result is
returned when it is a visible hit, otherwise the child itself is. -/
def raycastLoop (rc : RTree → Option RTree) (px py : Int) : List RTree → Option RTree
  | [] => none
  | c :: rest =>
    if !collidepoint px py c.info || !c.info.visible || c.info.ignore_raycast then
      raycastLoop rc px py rest
    else if c.children.length > 0 then
      match rc c with
      | some res => if res.info.visible then some res else some c
      | Option.none => some c
    else some c

/-- `UIInteract.raycast` (interact.py lines 194-213) with
`can_recurse_above = False`: the downward search (the upward retry climbs
parent links of the live tree and is outside this claim).  An active
keyboard-navigation target (`manager.navigation.tabbed_element`) pre-empts
everything (lines 196-197); an invisible start parent yields no hit (line
198).  `fuel` bounds the recursion depth, which in the source is the tree
height. -/
def raycast (tabbed : Option RTree) : Nat → Int × Int → RTree → Option RTree
  | 0, _, _ => Option.none
  | fuel + 1, pos, parent =>
    if tabbed.isSome then tabbed
    else if !parent.info.visible then Option.none
    else raycastLoop (raycast tabbed fuel pos) pos.1 pos.2 (sortDescZ parent.children)

/-- C5: (i) with no keyboard-navigation target, for two overlapping sibling
leaves with z indices 0 and 1, both visible, neither opting out, both
containing the pointer position, the raycast returns the z-index-1 node;
(ii) an active keyboard-navigation target is returned unconditionally. -/
theorem raycast_front_most (f : Nat) (pos : Int × Int) (p a b : RInfo)
    (hpv : p.visible = true)
    (_hav : a.visible = true) (hbv : b.visible = true)
    (_hai : a.ignore_raycast = false) (hbi : b.ignore_raycast = false)
    (haz : a.z_index = 0) (hbz : b.z_index = 1)
    (_hac : collidepoint pos.1 pos.2 a = true)
    (hbc : collidepoint pos.1 pos.2 b = true) :
    raycast Option.none (f + 2) pos (.mk p [.mk a [], .mk b []]) = some (.mk b [])
    ∧ ∀ (t parent : RTree) (g : Nat) (q : Int × Int),
        raycast (some t) (g + 1) q parent = some t := by
  constructor
  · have hsort : sortDescZ [RTree.mk a [], RTree.mk b []]
        = [RTree.mk b [], RTree.mk a []] := by
      simp [sortDescZ, sortByZ, insertByZ, RTree.info, haz, hbz]
    simp [raycast, hpv, hsort, raycastLoop, RTree.info, RTree.children, hbc, hbv, hbi]
  · intro t parent g q
    simp [raycast]

/-- Witness for C5: a concrete parent with two overlapping leaves at
z 0 and z 1, pointer at (5, 5); and a concrete navigation target. -/
theorem raycast_front_most_witness :
    raycast Option.none 2 (5, 5)
        (.mk ⟨0, 0, 100, 100, true, false, 0⟩
          [.mk ⟨0, 0, 10, 10, true, false, 0⟩ [], .mk ⟨0, 0, 10, 10, true, false, 1⟩ []])
      = some (.mk ⟨0, 0, 10, 10, true, false, 1⟩ [])
    ∧ raycast (some (.mk ⟨0, 0, 1, 1, true, false, 0⟩ [])) 1 (50, 50)
        (.mk ⟨0, 0, 100, 100, true, false, 0⟩ [])
      = some (.mk ⟨0, 0, 1, 1, true, false, 0⟩ []) :=
  ⟨(raycast_front_most 0 (5, 5) ⟨0, 0, 100, 100, true, false, 0⟩
      ⟨0, 0, 10, 10, true, false, 0⟩ ⟨0, 0, 10, 10, true, false, 1⟩
      rfl rfl rfl rfl rfl rfl rfl (by decide) (by decide)).1,
   (raycast_front_most 0 (5, 5) ⟨0, 0, 100, 100, true, false, 0⟩
      ⟨0, 0, 10, 10, true, false, 0⟩ ⟨0, 0, 10, 10, true, false, 1⟩
      rfl rfl rfl rfl rfl rfl rfl (by decide) (by decide)).2
     (.mk ⟨0, 0, 1, 1, true, false, 0⟩ []) (.mk ⟨0, 0, 100, 100, true, false, 0⟩ []) 0 (50, 50)⟩

/-! ## Anchor re-application (claim C7)

`Element._apply_anchors` (element.py lines 916-963), `set_size` (lines
588-609) and `set_absolute_pos` (lines 555-570), on a tree that is
otherwise unchanged. -/

/-- The six anchor slots.  A set slot carries the Int value its target
resolves to — `getattr(target.absolute_rect, target_anchor) + offset`
(element.py lines 920-951) — which the claim's "unchanged tree" hypothesis
keeps fixed across the two applications. -/
structure AnchorVals where
  left : Option Int
  right : Option Int
  top : Option Int
  bottom : Option Int
  centerx : Option Int
  centery : Option Int
deriving DecidableEq

/-- `all([x is None for x in self._anchors.values()])` (element.py line
917). -/
def AnchorVals.allNone (av : AnchorVals) : Bool :=
  av.left.isNone && av.right.isNone && av.top.isNone && av.bottom.isNone
  && av.centerx.isNone && av.centery.isNone

/-- Geometry of the anchored node: absolute rect topleft and size, and the
relative rect topleft.  (`set_size` keeps `absolute_rect.size` equal to
`relative_rect.size`, element.py lines 594-595 and 864-866, so one size is
stored.) -/
structure NodeRect where
  ax : Int
  ay : Int
  aw : Int
  ah : Int
  rx : Int
  ry : Int
deriving DecidableEq

/-- `Element.set_size` (element.py lines 588-609) restricted to the
geometry it changes on a non-stack node: unchanged size returns
immediately; otherwise both rect sizes take `max 1` of the request.
(The claim's single-node view: anchor re-application on this node is
suppressed by the call site's `apply_anchors=False`, and observers are
other nodes.) -/
def setSizeRect (st : NodeRect) (sw sh : Int) : NodeRect :=
  if st.aw = sw ∧ st.ah = sh then st
  else { st with aw := max 1 sw, ah := max 1 sh }

/-- `Element.set_absolute_pos` (element.py lines 555-570) with
`apply_anchors=False`: the new relative topleft is the requested position
minus the parent's absolute topleft; an unchanged relative position
returns immediately; otherwise `_update_absolute_rect_pos` recomputes the
absolute topleft as parent + relative − scroll (the applicable scroll
offset). -/
def setAbsolutePos (parent_abs scroll : Int × Int) (st : NodeRect) (px py : Int) :
    NodeRect :=
  let nrx := px - parent_abs.1
  let nry := py - parent_abs.2
  if st.rx = nrx ∧ st.ry = nry then st
  else
    { st with
      rx := nrx
      ry := nry
      ax := parent_abs.1 + nrx - scroll.1
      ay := parent_abs.2 + nry - scroll.2 }

/-- One axis of `_apply_anchors` (element.py lines 920-940 for x, 941-961
for y): a center anchor pins the center keeping the extent (pygame's
center setter: low edge = value − extent/2, extents stay ≥ 1 so integer
division matches pygame's shift); otherwise the low/high edges resolve
independently, a single-sided anchor preserves the extent, no anchor keeps
the current edges, and a collapsed interval forces high = low + 1.
Returns (low edge, extent). -/
def axisResolve (center lo hi : Option Int) (cur extent : Int) : Int × Int :=
  match center with
  | some c => (c - extent / 2, extent)
  | Option.none =>
    match lo, hi with
    | some l, some r =>
      let r' := if r ≤ l then l + 1 else r
      (l, r' - l)
    | some l, Option.none =>
      let r := l + extent
      let r' := if r ≤ l then l + 1 else r
      (l, r' - l)
    | Option.none, some r =>
      let l := r - extent
      let r' := if r ≤ l then l + 1 else r
      (l, r' - l)
    | Option.none, Option.none =>
      let l := cur
      let r := cur + extent
      let r' := if r ≤ l then l + 1 else r
      (l, r' - l)

/-- `Element._apply_anchors` (element.py lines 916-963): early return when
no slot is set; otherwise resolve both axes from the current absolute rect
and the (fixed) target values, then `set_size(temp_r.size,
apply_anchors=False)` and `set_absolute_pos(temp_r.topleft,
apply_anchors=False)`. -/
def applyAnchors (av : AnchorVals) (parent_abs scroll : Int × Int) (st : NodeRect) :
    NodeRect :=
  if av.allNone then st
  else
    let x := axisResolve av.centerx av.left av.right st.ax st.aw
    let y := axisResolve av.centery av.top av.bottom st.ay st.ah
    setAbsolutePos parent_abs scroll (setSizeRect st x.2 y.2) x.1 y.1

theorem axisResolve_extent_pos (c lo hi : Option Int) (cur extent : Int)
    (h : 1 ≤ extent) : 1 ≤ (axisResolve c lo hi cur extent).2 := by
  rcases c with _ | cv
  · rcases lo with _ | lv <;> rcases hi with _ | hv <;>
      simp only [axisResolve] <;> split <;> omega
  · simpa [axisResolve] using h

theorem axisResolve_idem (c lo hi : Option Int) (cur extent : Int)
    (h : 1 ≤ extent) :
    axisResolve c lo hi (axisResolve c lo hi cur extent).1
        (axisResolve c lo hi cur extent).2
      = axisResolve c lo hi cur extent := by
  rcases c with _ | cv
  · rcases lo with _ | lv <;> rcases hi with _ | hv <;>
      simp only [axisResolve] <;> split <;> simp_all <;> omega
  · simp [axisResolve]

/-- The rect produced by `set_size` followed by `set_absolute_pos` (the
tail of `_apply_anchors`) with zero scroll offset, on a node whose absolute
position is consistent with its relative position. -/
theorem applyStep_fields (pa : Int × Int) (st : NodeRect) (tx ty tw th : Int)
    (hW : 1 ≤ tw) (hH : 1 ≤ th)
    (hx : st.ax = pa.1 + st.rx) (hy : st.ay = pa.2 + st.ry) :
    (setAbsolutePos pa (0, 0) (setSizeRect st tw th) tx ty).ax = tx
    ∧ (setAbsolutePos pa (0, 0) (setSizeRect st tw th) tx ty).ay = ty
    ∧ (setAbsolutePos pa (0, 0) (setSizeRect st tw th) tx ty).aw = tw
    ∧ (setAbsolutePos pa (0, 0) (setSizeRect st tw th) tx ty).ah = th
    ∧ (setAbsolutePos pa (0, 0) (setSizeRect st tw th) tx ty).rx = tx - pa.1
    ∧ (setAbsolutePos pa (0, 0) (setSizeRect st tw th) tx ty).ry = ty - pa.2 := by
  obtain ⟨ax, ay, aw, ah, rx, ry⟩ := st
  have hmw : max 1 tw = tw := max_eq_right hW
  have hmh : max 1 th = th := max_eq_right hH
  simp only [setSizeRect, setAbsolutePos] at hx hy ⊢
  split_ifs <;> simp_all

/-- A rect on which both axis resolutions and the relative-position
consistency already agree is a fixed point of `_apply_anchors` (zero
scroll offset). -/
theorem applyAnchors_fixpoint (av : AnchorVals) (pa : Int × Int) (st1 : NodeRect)
    (hall : ¬ av.allNone = true)
    (hXx : axisResolve av.centerx av.left av.right st1.ax st1.aw = (st1.ax, st1.aw))
    (hYy : axisResolve av.centery av.top av.bottom st1.ay st1.ah = (st1.ay, st1.ah))
    (hrx : st1.rx = st1.ax - pa.1) (hry : st1.ry = st1.ay - pa.2) :
    applyAnchors av pa (0, 0) st1 = st1 := by
  simp only [applyAnchors, if_neg hall, hXx, hYy]
  simp [setSizeRect, setAbsolutePos, hrx, hry]

/-- C7 (amended): on an unchanged tree, re-applying `_apply_anchors` is
idempotent *provided the applicable scroll offset is zero* — starting from
positive extents and an absolute position consistent with the relative
position, a second application returns its input unchanged. -/
theorem apply_anchors_idempotent (av : AnchorVals) (pa : Int × Int) (st : NodeRect)
    (hw : 1 ≤ st.aw) (hh : 1 ≤ st.ah)
    (hx : st.ax = pa.1 + st.rx) (hy : st.ay = pa.2 + st.ry) :
    applyAnchors av pa (0, 0) (applyAnchors av pa (0, 0) st)
      = applyAnchors av pa (0, 0) st := by
  by_cases hall : av.allNone = true
  · simp [applyAnchors, hall]
  · have hW := axisResolve_extent_pos av.centerx av.left av.right st.ax st.aw hw
    have hH := axisResolve_extent_pos av.centery av.top av.bottom st.ay st.ah hh
    have hinner : applyAnchors av pa (0, 0) st
        = setAbsolutePos pa (0, 0)
            (setSizeRect st (axisResolve av.centerx av.left av.right st.ax st.aw).2
              (axisResolve av.centery av.top av.bottom st.ay st.ah).2)
            (axisResolve av.centerx av.left av.right st.ax st.aw).1
            (axisResolve av.centery av.top av.bottom st.ay st.ah).1 := by
      simp [applyAnchors, hall]
    obtain ⟨e1, e2, e3, e4, e5, e6⟩ := applyStep_fields pa st
      (axisResolve av.centerx av.left av.right st.ax st.aw).1
      (axisResolve av.centery av.top av.bottom st.ay st.ah).1
      (axisResolve av.centerx av.left av.right st.ax st.aw).2
      (axisResolve av.centery av.top av.bottom st.ay st.ah).2
      hW hH hx hy
    rw [hinner]
    apply applyAnchors_fixpoint av pa _ hall
    · rw [e1, e3, axisResolve_idem av.centerx av.left av.right st.ax st.aw hw]
    · rw [e2, e4, axisResolve_idem av.centery av.top av.bottom st.ay st.ah hh]
    · rw [e5, e1]
    · rw [e6, e2]

/-- C7 counterexample anchors: only the left slot set, resolving to 50. -/
def c7Anchors : AnchorVals :=
  ⟨some 50, Option.none, Option.none, Option.none, Option.none, Option.none⟩

/-- C7 counterexample rect: consistent with parent absolute topleft (0, 0)
and parent scroll offset (0, 5). -/
def c7Rect : NodeRect := ⟨10, 20, 10, 10, 10, 25⟩

/-- C7 as stated is false: with a nonzero parent scroll offset (0, 5), one
anchor application moves the node to absolute y 15, a second to absolute y
10 — `set_absolute_pos` subtracts the parent's absolute topleft but the
absolute rect subtracts the scroll offset again, so every re-application
drifts the unanchored axis by the scroll offset. -/
theorem c7_counterexample :
    applyAnchors c7Anchors (0, 0) (0, 5) (applyAnchors c7Anchors (0, 0) (0, 5) c7Rect)
      ≠ applyAnchors c7Anchors (0, 0) (0, 5) c7Rect := by
  decide

/-- Witness for C7's amended theorem at a concrete node with zero scroll. -/
theorem apply_anchors_idempotent_witness :
    applyAnchors c7Anchors (0, 0) (0, 0)
        (applyAnchors c7Anchors (0, 0) (0, 0) ⟨10, 25, 10, 10, 10, 25⟩)
      = applyAnchors c7Anchors (0, 0) (0, 0) ⟨10, 25, 10, 10, 10, 25⟩ :=
  apply_anchors_idempotent c7Anchors (0, 0) ⟨10, 25, 10, 10, 10, 25⟩
    (by decide) (by decide) (by decide) (by decide)

/-! ## Interaction state machine (claim C6)

`UIInteract._logic` (interact.py lines 29-192).  One `step` consumes one
per-frame input snapshot.  The ray-cast result, the point-in-rect tests and
the text/scroll lookups the pass performs against the live tree are carried
in the input snapshot (the ray-cast algorithm itself is the C5 model);
callback invocations and posted events are recorded in emission order. -/

/-- One emission: a named callback invocation
(`status.invoke_callback(s)`) or a posted event
(`events._post_base_event`), with the element it concerns. -/
inductive Ev where
  | cb (name : String) (el : Nat)
  | ev (name : String) (el : Nat)
deriving DecidableEq

/-- The status flags `_logic` reads and writes on one element. -/
structure EStatus where
  hovered : Bool
  pressed : Bool
  right_pressed : Bool
  selected : Bool
  can_select : Bool
  scroll_hovered : Bool
  text_can_select : Bool
deriving DecidableEq

/-- The per-manager interaction state (interact.py lines 20-27). -/
structure IState where
  statuses : Nat → EStatus
  hovered_el : Option Nat
  pressed_el : Option Nat
  right_pressed_el : Option Nat
  last_scroll_hovered : Option Nat
  text_select_el : Option Nat

/-- One frame's input snapshot, together with the answers the frame's tree
queries would give: the ray-cast hit for the current pointer position, the
per-element point-in-rect test, the nearest scrollbar-showing stack
ancestor of the hit (`_find_scroll_hovered`), whether the text backend
resolves a click index (`common.text_click_idx`), and whether the tracked
text selection changed this frame. -/
structure FrameInput where
  last_rendered : Bool
  mouse0 : Bool
  mouse1 : Bool
  space_pressed : Bool
  tabbed : Option Nat
  raycastHit : Option Nat
  mouseOver : Nat → Bool
  scrollAncestor : Option Nat
  textClickHit : Bool
  textSelChanged : Bool

/-- Write one element's status. -/
def updStatus (f : EStatus → EStatus) (i : Nat) (st : Nat → EStatus) : Nat → EStatus :=
  fun j => if j = i then f (st j) else st j

/-- The text-selection block (interact.py lines 34-62): active only while
`text_select_el` is set; its computations live in the external text
backend, and its only emission is `on_text_selection_change` (it otherwise
moves the text cursor and selection rectangles, state outside this
machine). -/
def textSelEvents (inp : FrameInput) (s : IState) : List Ev :=
  match s.text_select_el with
  | some t => if inp.textSelChanged then [Ev.cb "on_text_selection_change" t] else []
  | Option.none => []

/-- The active-left-press branch (interact.py lines 65-98): `when_pressed`
fires every frame; on release, stop-press and click fire, then a
select-capable node's selection toggles with the matching callback. -/
def stepPressed (inp : FrameInput) (s : IState) (p : Nat) : IState × List Ev :=
  let st1 := updStatus (fun e => { e with hovered := inp.mouseOver p }) p s.statuses
  let evs1 : List Ev := [Ev.cb "when_pressed" p, Ev.ev "PRESSED" p]
  if (!inp.mouse0 && !(inp.tabbed == some p)) || ((inp.tabbed == some p) && !inp.space_pressed)
  then
    let st2 := updStatus (fun e => { e with pressed := false }) p st1
    let evs2 : List Ev := [Ev.cb "on_stop_press" p, Ev.cb "on_click" p,
      Ev.ev "STOP_PRESS" p, Ev.ev "CLICK" p]
    if (st2 p).can_select then
      let old := (st2 p).selected
      let st3 := updStatus (fun e => { e with selected := !old }) p st2
      let evs3 : List Ev :=
        if old then [Ev.cb "on_deselect" p, Ev.ev "DESELECT" p]
        else [Ev.cb "on_select" p, Ev.ev "SELECT" p]
      ({ s with statuses := st3, pressed_el := Option.none }, evs1 ++ evs2 ++ evs3)
    else
      ({ s with statuses := st2, pressed_el := Option.none }, evs1 ++ evs2)
  else
    ({ s with statuses := st1 }, evs1)

/-- The active-right-press branch (interact.py lines 100-119): symmetric to
the left press, without the select toggle. -/
def stepRightPressed (inp : FrameInput) (s : IState) (rp : Nat) : IState × List Ev :=
  let st1 := updStatus (fun e => { e with hovered := inp.mouseOver rp }) rp s.statuses
  let evs1 : List Ev := [Ev.cb "when_right_pressed" rp, Ev.ev "RIGHT_PRESSED" rp]
  if !inp.mouse1 then
    let st2 := updStatus (fun e => { e with right_pressed := false }) rp st1
    ({ s with statuses := st2, right_pressed_el := Option.none },
     evs1 ++ [Ev.cb "on_stop_right_press" rp, Ev.cb "on_right_click" rp,
       Ev.ev "STOP_RIGHT_PRESS" rp, Ev.ev "RIGHT_CLICK" rp])
  else
    ({ s with statuses := st1 }, evs1)

/-- `UIInteract._text_select_start_press` (interact.py lines 232-251),
reached right after a start-press: nothing happens for a node whose text is
not selectable; otherwise any previous selection is dropped, and when the
text backend resolves a click index the node becomes the selection owner
and `on_text_selection_change` fires. -/
def textSelectStartPress (inp : FrameInput) (s : IState) (h : Nat) :
    Option Nat × List Ev :=
  if (s.statuses h).text_can_select then
    if inp.textClickHit then (some h, [Ev.cb "on_text_selection_change" h])
    else ((Option.none : Option Nat), [])
  else (s.text_select_el, [])

/-- Hover re-evaluation, first half (interact.py lines 122-142): drop the
old hover flag, re-ray-cast, and on a change fire stop-hover on the old
node and clear the scroll-hover association.  Returns (statuses, new
hovered element, last scroll-hovered, emissions). -/
def hoverPhaseA (inp : FrameInput) (s : IState) :
    (Nat → EStatus) × Option Nat × Option Nat × List Ev :=
  match s.hovered_el with
  | some old =>
    let st := updStatus (fun e => { e with hovered := false }) old s.statuses
    let nh := inp.raycastHit
    if !(nh == some old) then
      let evs := [Ev.cb "on_stop_hover" old, Ev.ev "STOP_HOVER" old]
      match s.last_scroll_hovered with
      | some lsh =>
        (updStatus (fun e => { e with scroll_hovered := false }) lsh st, nh,
         (Option.none : Option Nat), evs)
      | Option.none => (st, nh, (Option.none : Option Nat), evs)
    else
      (updStatus (fun e => { e with hovered := true }) old st, nh,
       s.last_scroll_hovered, ([] : List Ev))
  | Option.none => (s.statuses, inp.raycastHit, s.last_scroll_hovered, ([] : List Ev))

/-- Hover re-evaluation, second half (interact.py lines 146-153): a hit
that was not already hovered is marked, fires start-hover, and the nearest
scrollbar-showing stack ancestor is marked scroll-hovered. -/
def hoverPhaseB (inp : FrameInput) (stA : Nat → EStatus) (lshA : Option Nat) (h : Nat) :
    (Nat → EStatus) × Option Nat × List Ev :=
  if !(stA h).hovered then
    let st := updStatus (fun e => { e with hovered := true }) h stA
    let evs := [Ev.cb "on_start_hover" h, Ev.ev "START_HOVER" h]
    match inp.scrollAncestor with
    | some sa =>
      (updStatus (fun e => { e with scroll_hovered := true }) sa st, some sa, evs)
    | Option.none => (st, lshA, evs)
  else (stA, lshA, ([] : List Ev))

/-- The no-button branch (interact.py lines 120-181): hover re-evaluation
via the ray-cast, stop/start-hover emission, scroll-hover bookkeeping,
`when_hovered`, and the transition into a left or right press on the
hovered element. -/
def stepHover (inp : FrameInput) (s : IState) : IState × List Ev :=
  let a := hoverPhaseA inp s
  let stA := a.1
  let hovNew := a.2.1
  let lshA := a.2.2.1
  let evsA := a.2.2.2
  match hovNew with
  | Option.none =>
    ({ s with statuses := stA, hovered_el := Option.none, last_scroll_hovered := lshA },
     evsA)
  | some h =>
    let b := hoverPhaseB inp stA lshA h
    let stB := b.1
    let lshB := b.2.1
    let evsB := b.2.2
    let evsH : List Ev := [Ev.cb "when_hovered" h, Ev.ev "HOVERED" h]
    if inp.mouse0 || (inp.space_pressed && (inp.tabbed == some h)) then
      if !(stB h).pressed then
        let stC := updStatus (fun e => { e with pressed := true }) h stB
        let t := textSelectStartPress inp { s with statuses := stC } h
        ({ s with
            statuses := stC
            hovered_el := some h
            pressed_el := some h
            last_scroll_hovered := lshB
            text_select_el := t.1 },
         evsA ++ evsB ++ evsH
           ++ [Ev.cb "on_start_press" h, Ev.ev "START_PRESS" h] ++ t.2)
      else
        ({ s with statuses := stB, hovered_el := some h, last_scroll_hovered := lshB },
         evsA ++ evsB ++ evsH)
    else if inp.mouse1 then
      if !(stB h).right_pressed then
        ({ s with
            statuses := updStatus (fun e => { e with right_pressed := true }) h stB
            hovered_el := some h
            right_pressed_el := some h
            last_scroll_hovered := lshB },
         evsA ++ evsB ++ evsH
           ++ [Ev.cb "on_start_right_press" h, Ev.ev "START_RIGHT_PRESS" h])
      else
        ({ s with statuses := stB, hovered_el := some h, last_scroll_hovered := lshB },
         evsA ++ evsB ++ evsH)
    else
      ({ s with statuses := stB, hovered_el := some h, last_scroll_hovered := lshB },
       evsA ++ evsB ++ evsH)

/-- `UIInteract._logic` (interact.py lines 29-192): nothing happens before
the first render; then the text-selection block, then exactly one of the
three branches in the source's fixed priority order.  (The trailing cursor
section, lines 183-192, only calls `pygame.mouse.set_cursor`.) -/
def step (inp : FrameInput) (s : IState) : IState × List Ev :=
  if !inp.last_rendered then (s, []) else
  let tEvs := textSelEvents inp s
  match s.pressed_el with
  | some p =>
    let r := stepPressed inp s p
    (r.1, tEvs ++ r.2)
  | Option.none =>
    match s.right_pressed_el with
    | some rp =>
      let r := stepRightPressed inp s rp
      (r.1, tEvs ++ r.2)
    | Option.none =>
      let r := stepHover inp s
      (r.1, tEvs ++ r.2)

/-- Run a sequence of frames, concatenating the emissions. -/
def run (s : IState) : List FrameInput → IState × List Ev
  | [] => (s, [])
  | i :: rest =>
    let r := step i s
    let r2 := run r.1 rest
    (r2.1, r.2 ++ r2.2)

/-- Press scenario frames: left button held, pointer over node `n`, no
keyboard navigation, no selectable text under the pointer. -/
def pressInput (n : Nat) : FrameInput :=
  { last_rendered := true, mouse0 := true, mouse1 := false, space_pressed := false,
    tabbed := Option.none, raycastHit := some n, mouseOver := fun i => i == n,
    scrollAncestor := Option.none, textClickHit := false, textSelChanged := false }

/-- The release frame: same pointer, left button up. -/
def releaseInput (n : Nat) : FrameInput :=
  { pressInput n with mouse0 := false }

/-- An unselected, select-capable, not-yet-hovered node with no selectable
text. -/
def freshStatus : EStatus :=
  ⟨false, false, false, false, true, false, false⟩

/-- Idle interaction state over the given statuses. -/
def initState (st : Nat → EStatus) : IState :=
  ⟨st, Option.none, Option.none, Option.none, Option.none, Option.none⟩

/-- Recognises the four callbacks whose order the claim fixes, for node
`n`. -/
def claimEv (n : Nat) : Ev → Bool
  | Ev.cb name el =>
    (name == "on_start_press" || name == "on_stop_press"
      || name == "on_click" || name == "on_select") && el == n
  | Ev.ev _ _ => false

/-- Press-episode invariant while the left button stays held. -/
def Pinv (n : Nat) (s : IState) : Prop :=
  s.pressed_el = some n ∧ s.text_select_el = Option.none
  ∧ (s.statuses n).can_select = true ∧ (s.statuses n).selected = false

/-- First frame of the episode: the fresh node is hovered and pressed, in
source order. -/
theorem step_first (st : Nat → EStatus) (n : Nat) (hn : st n = freshStatus) :
    (step (pressInput n) (initState st)).2
      = [Ev.cb "on_start_hover" n, Ev.ev "START_HOVER" n, Ev.cb "when_hovered" n,
         Ev.ev "HOVERED" n, Ev.cb "on_start_press" n, Ev.ev "START_PRESS" n]
    ∧ Pinv n (step (pressInput n) (initState st)).1 := by
  constructor <;>
    simp [step, stepHover, hoverPhaseA, hoverPhaseB, textSelEvents, textSelectStartPress,
      pressInput, initState, updStatus, hn, freshStatus, Pinv]

/-- A held frame only re-fires `when_pressed` and keeps the episode
invariant. -/
theorem step_held (n : Nat) (s : IState) (h : Pinv n s) :
    (step (pressInput n) s).2 = [Ev.cb "when_pressed" n, Ev.ev "PRESSED" n]
    ∧ Pinv n (step (pressInput n) s).1 := by
  obtain ⟨hp, ht, hc, hs⟩ := h
  constructor <;>
    simp [step, stepPressed, textSelEvents, pressInput, hp, ht, Pinv, updStatus, hc, hs]

/-- The release frame: `when_pressed`, then stop-press and click, then the
select toggle of the unselected select-capable node. -/
theorem step_release (n : Nat) (s : IState) (h : Pinv n s) :
    (step (releaseInput n) s).2
      = [Ev.cb "when_pressed" n, Ev.ev "PRESSED" n, Ev.cb "on_stop_press" n,
         Ev.cb "on_click" n, Ev.ev "STOP_PRESS" n, Ev.ev "CLICK" n,
         Ev.cb "on_select" n, Ev.ev "SELECT" n] := by
  obtain ⟨hp, ht, hc, hs⟩ := h
  simp [step, stepPressed, textSelEvents, releaseInput, pressInput, hp, ht, updStatus,
    hc, hs]

/-- Any number of held frames followed by the release: the filtered trace
is stop-press, click, select. -/
theorem run_held_filter (n : Nat) : ∀ (k : Nat) (s : IState), Pinv n s →
    ((run s (List.replicate k (pressInput n) ++ [releaseInput n])).2).filter (claimEv n)
      = [Ev.cb "on_stop_press" n, Ev.cb "on_click" n, Ev.cb "on_select" n] := by
  intro k
  induction k with
  | zero =>
    intro s h
    simp only [List.replicate, List.nil_append, run]
    rw [step_release n s h]
    simp [claimEv]
  | succ k ih =>
    intro s h
    have hstep := step_held n s h
    simp only [List.replicate, List.cons_append, run, List.filter_append, List.append_eq]
    rw [hstep.1, ih _ hstep.2]
    simp [claimEv]

theorem textSelEvents_shape (inp : FrameInput) (s : IState) :
    ∀ e ∈ textSelEvents inp s, ∃ t, e = Ev.cb "on_text_selection_change" t := by
  intro e he
  unfold textSelEvents at he
  rcases hts : s.text_select_el with _ | t <;> simp only [hts] at he
  · simp at he
  · split_ifs at he
    · simp at he
      exact ⟨t, he⟩
    · simp at he

theorem hoverPhaseA_evs (inp : FrameInput) (s : IState) :
    ∀ e ∈ (hoverPhaseA inp s).2.2.2,
      ∃ t, e = Ev.cb "on_stop_hover" t ∨ e = Ev.ev "STOP_HOVER" t := by
  intro e he
  unfold hoverPhaseA at he
  rcases hold : s.hovered_el with _ | old <;> simp only [hold] at he
  · simp at he
  · split_ifs at he with hch
    · rcases hlsh : s.last_scroll_hovered with _ | lsh <;> simp only [hlsh] at he <;>
        simp at he <;>
        rcases he with rfl | rfl
      · exact ⟨old, Or.inl rfl⟩
      · exact ⟨old, Or.inr rfl⟩
      · exact ⟨old, Or.inl rfl⟩
      · exact ⟨old, Or.inr rfl⟩
    · simp at he

theorem hoverPhaseB_evs (inp : FrameInput) (stA : Nat → EStatus) (lshA : Option Nat)
    (h : Nat) :
    ∀ e ∈ (hoverPhaseB inp stA lshA h).2.2,
      e = Ev.cb "on_start_hover" h ∨ e = Ev.ev "START_HOVER" h := by
  intro e he
  unfold hoverPhaseB at he
  split_ifs at he
  · rcases hsa : inp.scrollAncestor with _ | sa <;> simp only [hsa] at he <;>
      simp at he <;>
      rcases he with rfl | rfl
    · exact Or.inl rfl
    · exact Or.inr rfl
    · exact Or.inl rfl
    · exact Or.inr rfl
  · simp at he

theorem textSelectStartPress_evs (inp : FrameInput) (s : IState) (h : Nat) :
    ∀ e ∈ (textSelectStartPress inp s h).2, e = Ev.cb "on_text_selection_change" h := by
  intro e he
  unfold textSelectStartPress at he
  split_ifs at he <;> simp at he
  exact he

/-- The no-button branch emits neither `on_select` nor `on_click`, and can
set the pressed element only alongside an `on_start_press` emission. -/
theorem stepHover_facts (inp : FrameInput) (s : IState) (m : Nat) :
    (Ev.cb "on_select" m ∉ (stepHover inp s).2)
    ∧ (Ev.cb "on_click" m ∉ (stepHover inp s).2)
    ∧ ((stepHover inp s).1.pressed_el = some m →
        s.pressed_el = some m ∨ Ev.cb "on_start_press" m ∈ (stepHover inp s).2) := by
  have hAe := hoverPhaseA_evs inp s
  rcases hhov : (hoverPhaseA inp s).2.1 with _ | h
  · refine ⟨?_, ?_, ?_⟩
    · intro hmem
      simp only [stepHover, hhov] at hmem
      obtain ⟨t, ht⟩ := hAe _ hmem
      rcases ht with ht | ht <;> simp at ht
    · intro hmem
      simp only [stepHover, hhov] at hmem
      obtain ⟨t, ht⟩ := hAe _ hmem
      rcases ht with ht | ht <;> simp at ht
    · intro hpr
      simp only [stepHover, hhov] at hpr
      exact Or.inl hpr
  · have hBe := hoverPhaseB_evs inp (hoverPhaseA inp s).1 (hoverPhaseA inp s).2.2.1 h
    have noSelBase : Ev.cb "on_select" m ∈ (hoverPhaseA inp s).2.2.2
        ++ (hoverPhaseB inp (hoverPhaseA inp s).1 (hoverPhaseA inp s).2.2.1 h).2.2
        ++ [Ev.cb "when_hovered" h, Ev.ev "HOVERED" h] → False := by
      intro hmem
      simp only [List.mem_append] at hmem
      rcases hmem with (hm | hm) | hm
      · obtain ⟨t, ht⟩ := hAe _ hm
        rcases ht with ht | ht <;> simp at ht
      · rcases hBe _ hm with ht | ht <;> simp at ht
      · simp at hm
    have noClickBase : Ev.cb "on_click" m ∈ (hoverPhaseA inp s).2.2.2
        ++ (hoverPhaseB inp (hoverPhaseA inp s).1 (hoverPhaseA inp s).2.2.1 h).2.2
        ++ [Ev.cb "when_hovered" h, Ev.ev "HOVERED" h] → False := by
      intro hmem
      simp only [List.mem_append] at hmem
      rcases hmem with (hm | hm) | hm
      · obtain ⟨t, ht⟩ := hAe _ hm
        rcases ht with ht | ht <;> simp at ht
      · rcases hBe _ hm with ht | ht <;> simp at ht
      · simp at hm
    cases hbtn : (inp.mouse0 || (inp.space_pressed && (inp.tabbed == some h))) with
    | true =>
      cases hprs :
          ((hoverPhaseB inp (hoverPhaseA inp s).1 (hoverPhaseA inp s).2.2.1 h).1 h).pressed with
      | false =>
        refine ⟨?_, ?_, ?_⟩
        · intro hmem
          simp only [stepHover, hhov, hbtn, hprs, Bool.not_false, if_true] at hmem
          rcases List.mem_append.mp hmem with hmem | hm
          · rcases List.mem_append.mp hmem with hbase | hm2
            · exact noSelBase hbase
            · simp at hm2
          · have := textSelectStartPress_evs inp _ h _ hm
            simp at this
        · intro hmem
          simp only [stepHover, hhov, hbtn, hprs, Bool.not_false, if_true] at hmem
          rcases List.mem_append.mp hmem with hmem | hm
          · rcases List.mem_append.mp hmem with hbase | hm2
            · exact noClickBase hbase
            · simp at hm2
          · have := textSelectStartPress_evs inp _ h _ hm
            simp at this
        · intro hpr
          simp only [stepHover, hhov, hbtn, hprs, Bool.not_false, if_true] at hpr
          simp at hpr
          refine Or.inr ?_
          subst hpr
          simp only [stepHover, hhov, hbtn, hprs, Bool.not_false, if_true]
          simp [List.mem_append]
      | true =>
        refine ⟨?_, ?_, ?_⟩
        · intro hmem
          simp only [stepHover, hhov, hbtn, hprs, Bool.not_true, if_false] at hmem
          exact noSelBase hmem
        · intro hmem
          simp only [stepHover, hhov, hbtn, hprs, Bool.not_true, if_false] at hmem
          exact noClickBase hmem
        · intro hpr
          simp only [stepHover, hhov, hbtn, hprs, Bool.not_true, if_false] at hpr
          exact Or.inl hpr
    | false =>
      cases hm1 : inp.mouse1 with
      | true =>
        cases hrp :
            ((hoverPhaseB inp (hoverPhaseA inp s).1 (hoverPhaseA inp s).2.2.1 h).1 h).right_pressed with
        | false =>
          refine ⟨?_, ?_, ?_⟩
          · intro hmem
            simp only [stepHover, hhov, hbtn, hm1, hrp, Bool.not_false, if_true,
              if_false] at hmem
            rcases List.mem_append.mp hmem with hbase | hm2
            · exact noSelBase hbase
            · simp at hm2
          · intro hmem
            simp only [stepHover, hhov, hbtn, hm1, hrp, Bool.not_false, if_true,
              if_false] at hmem
            rcases List.mem_append.mp hmem with hbase | hm2
            · exact noClickBase hbase
            · simp at hm2
          · intro hpr
            simp only [stepHover, hhov, hbtn, hm1, hrp, Bool.not_false, if_true,
              if_false] at hpr
            exact Or.inl hpr
        | true =>
          refine ⟨?_, ?_, ?_⟩
          · intro hmem
            simp only [stepHover, hhov, hbtn, hm1, hrp, Bool.not_true, if_false] at hmem
            exact noSelBase hmem
          · intro hmem
            simp only [stepHover, hhov, hbtn, hm1, hrp, Bool.not_true, if_false] at hmem
            exact noClickBase hmem
          · intro hpr
            simp only [stepHover, hhov, hbtn, hm1, hrp, Bool.not_true, if_false] at hpr
            exact Or.inl hpr
      | false =>
        refine ⟨?_, ?_, ?_⟩
        · intro hmem
          simp only [stepHover, hhov, hbtn, hm1, if_false] at hmem
          exact noSelBase hmem
        · intro hmem
          simp only [stepHover, hhov, hbtn, hm1, if_false] at hmem
          exact noClickBase hmem
        · intro hpr
          simp only [stepHover, hhov, hbtn, hm1, if_false] at hpr
          exact Or.inl hpr

/-- The left-press branch: `on_select` only ever follows `on_stop_press` in
the same frame; `on_click` fires only for the pressed element; the branch
never sets a new pressed element. -/
theorem stepPressed_facts (inp : FrameInput) (s : IState) (p m : Nat) :
    (Ev.cb "on_select" m ∈ (stepPressed inp s p).2 →
      ∃ l1 l2, (stepPressed inp s p).2 = l1 ++ Ev.cb "on_stop_press" m :: l2
        ∧ Ev.cb "on_select" m ∈ l2)
    ∧ (Ev.cb "on_click" m ∈ (stepPressed inp s p).2 → m = p)
    ∧ ((stepPressed inp s p).1.pressed_el = some m → s.pressed_el = some m) := by
  by_cases h1 : ((!inp.mouse0 && !(inp.tabbed == some p))
      || ((inp.tabbed == some p) && !inp.space_pressed)) = true
  · by_cases hcs : (s.statuses p).can_select = true
    · by_cases hsel : (s.statuses p).selected = true
      · -- release, select-capable, previously selected: deselect
        have hevs : (stepPressed inp s p).2
            = [Ev.cb "when_pressed" p, Ev.ev "PRESSED" p, Ev.cb "on_stop_press" p,
               Ev.cb "on_click" p, Ev.ev "STOP_PRESS" p, Ev.ev "CLICK" p,
               Ev.cb "on_deselect" p, Ev.ev "DESELECT" p] := by
          simp [stepPressed, h1, updStatus, hcs, hsel]
        have hst : (stepPressed inp s p).1.pressed_el = Option.none := by
          simp [stepPressed, h1, updStatus, hcs, hsel]
        refine ⟨?_, ?_, ?_⟩
        · intro hmem
          rw [hevs] at hmem
          simp at hmem
        · intro hmem
          rw [hevs] at hmem
          simp at hmem
          exact hmem
        · intro hpr
          rw [hst] at hpr
          simp at hpr
      · -- release, select-capable, previously unselected: select
        have hevs : (stepPressed inp s p).2
            = [Ev.cb "when_pressed" p, Ev.ev "PRESSED" p, Ev.cb "on_stop_press" p,
               Ev.cb "on_click" p, Ev.ev "STOP_PRESS" p, Ev.ev "CLICK" p,
               Ev.cb "on_select" p, Ev.ev "SELECT" p] := by
          simp [stepPressed, h1, updStatus, hcs, hsel]
        have hst : (stepPressed inp s p).1.pressed_el = Option.none := by
          simp [stepPressed, h1, updStatus, hcs, hsel]
        refine ⟨?_, ?_, ?_⟩
        · intro hmem
          rw [hevs] at hmem
          have hm : m = p := by
            simp at hmem
            exact hmem
          subst hm
          rw [hevs]
          exact ⟨[Ev.cb "when_pressed" m, Ev.ev "PRESSED" m],
            [Ev.cb "on_click" m, Ev.ev "STOP_PRESS" m, Ev.ev "CLICK" m,
             Ev.cb "on_select" m, Ev.ev "SELECT" m], rfl, by simp⟩
        · intro hmem
          rw [hevs] at hmem
          simp at hmem
          exact hmem
        · intro hpr
          rw [hst] at hpr
          simp at hpr
    · -- release, not select-capable
      have hevs : (stepPressed inp s p).2
          = [Ev.cb "when_pressed" p, Ev.ev "PRESSED" p, Ev.cb "on_stop_press" p,
             Ev.cb "on_click" p, Ev.ev "STOP_PRESS" p, Ev.ev "CLICK" p] := by
        simp [stepPressed, h1, updStatus, hcs]
      have hst : (stepPressed inp s p).1.pressed_el = Option.none := by
        simp [stepPressed, h1, updStatus, hcs]
      refine ⟨?_, ?_, ?_⟩
      · intro hmem
        rw [hevs] at hmem
        simp at hmem
      · intro hmem
        rw [hevs] at hmem
        simp at hmem
        exact hmem
      · intro hpr
        rw [hst] at hpr
        simp at hpr
  · -- still held
    have hevs : (stepPressed inp s p).2
        = [Ev.cb "when_pressed" p, Ev.ev "PRESSED" p] := by
      simp [stepPressed, h1]
    have hst : (stepPressed inp s p).1.pressed_el = s.pressed_el := by
      simp [stepPressed, h1]
    refine ⟨?_, ?_, ?_⟩
    · intro hmem
      rw [hevs] at hmem
      simp at hmem
    · intro hmem
      rw [hevs] at hmem
      simp at hmem
    · intro hpr
      rw [hst] at hpr
      exact hpr

/-- The right-press branch emits neither `on_select` nor `on_click` and
leaves the pressed element untouched. -/
theorem stepRightPressed_facts (inp : FrameInput) (s : IState) (rp m : Nat) :
    (Ev.cb "on_select" m ∉ (stepRightPressed inp s rp).2)
    ∧ (Ev.cb "on_click" m ∉ (stepRightPressed inp s rp).2)
    ∧ ((stepRightPressed inp s rp).1.pressed_el = s.pressed_el) := by
  unfold stepRightPressed
  split_ifs <;>
    exact ⟨by intro hmem; simp at hmem, by intro hmem; simp at hmem, rfl⟩

/-- C6: (i) pressing then releasing the left button over an unselected,
select-capable node while the pointer stays over it (any number of held
frames in between) produces, among the four claim callbacks, exactly
start-press, stop-press, click, select in that order; (ii) in every frame,
an `on_select` emission is preceded in that same frame's emission list by
`on_stop_press` for the same node; (iii) `on_click` fires only for the
element that was the pressed element at frame start; (iv) an element
becomes the pressed element only in a frame that emits `on_start_press`
for it (or was already pressed). -/
theorem press_release_order (st : Nat → EStatus) (n k : Nat)
    (hn : st n = freshStatus) :
    (((run (initState st)
        (pressInput n :: (List.replicate k (pressInput n) ++ [releaseInput n]))).2).filter
          (claimEv n)
      = [Ev.cb "on_start_press" n, Ev.cb "on_stop_press" n, Ev.cb "on_click" n,
         Ev.cb "on_select" n])
    ∧ (∀ (inp : FrameInput) (s : IState) (m : Nat),
        Ev.cb "on_select" m ∈ (step inp s).2 →
        ∃ l1 l2, (step inp s).2 = l1 ++ Ev.cb "on_stop_press" m :: l2
          ∧ Ev.cb "on_select" m ∈ l2)
    ∧ (∀ (inp : FrameInput) (s : IState) (m : Nat),
        Ev.cb "on_click" m ∈ (step inp s).2 → s.pressed_el = some m)
    ∧ (∀ (inp : FrameInput) (s : IState) (m : Nat),
        (step inp s).1.pressed_el = some m →
        s.pressed_el = some m ∨ Ev.cb "on_start_press" m ∈ (step inp s).2) := by
  refine ⟨?_, ?_, ?_, ?_⟩
  · have h1 := step_first st n hn
    simp only [run, List.filter_append]
    rw [h1.1, run_held_filter n k _ h1.2]
    simp [claimEv]
  · intro inp s m hmem
    unfold step at hmem ⊢
    split_ifs at hmem ⊢ with hlr
    · simp at hmem
    · have hTs := textSelEvents_shape inp s
      rcases hp : s.pressed_el with _ | p
      · rcases hrp : s.right_pressed_el with _ | rp
        · simp only [hp, hrp] at hmem ⊢
          rcases List.mem_append.mp hmem with hmem | hmem
          · obtain ⟨t, ht⟩ := hTs _ hmem
            simp at ht
          · exact absurd hmem (stepHover_facts inp s m).1
        · simp only [hp, hrp] at hmem ⊢
          rcases List.mem_append.mp hmem with hmem | hmem
          · obtain ⟨t, ht⟩ := hTs _ hmem
            simp at ht
          · exact absurd hmem (stepRightPressed_facts inp s rp m).1
      · simp only [hp] at hmem ⊢
        rcases List.mem_append.mp hmem with hmem | hmem
        · obtain ⟨t, ht⟩ := hTs _ hmem
          simp at ht
        · obtain ⟨l1, l2, heq, hsel⟩ := (stepPressed_facts inp s p m).1 hmem
          exact ⟨textSelEvents inp s ++ l1, l2, by rw [List.append_assoc, heq], hsel⟩
  · intro inp s m hmem
    unfold step at hmem
    split_ifs at hmem with hlr
    · simp at hmem
    · have hTs := textSelEvents_shape inp s
      rcases hp : s.pressed_el with _ | p
      · rcases hrp : s.right_pressed_el with _ | rp
        · simp only [hp, hrp] at hmem
          rcases List.mem_append.mp hmem with hmem | hmem
          · obtain ⟨t, ht⟩ := hTs _ hmem
            simp at ht
          · exact absurd hmem (stepHover_facts inp s m).2.1
        · simp only [hp, hrp] at hmem
          rcases List.mem_append.mp hmem with hmem | hmem
          · obtain ⟨t, ht⟩ := hTs _ hmem
            simp at ht
          · exact absurd hmem (stepRightPressed_facts inp s rp m).2.1
      · simp only [hp] at hmem
        rcases List.mem_append.mp hmem with hmem | hmem
        · obtain ⟨t, ht⟩ := hTs _ hmem
          simp at ht
        · rw [(stepPressed_facts inp s p m).2.1 hmem]
  · intro inp s m hpr
    unfold step at hpr ⊢
    split_ifs at hpr ⊢ with hlr
    · exact Or.inl hpr
    · rcases hp : s.pressed_el with _ | p
      · rcases hrp : s.right_pressed_el with _ | rp
        · simp only [hp, hrp] at hpr ⊢
          rcases (stepHover_facts inp s m).2.2 hpr with hc | hc
          · rw [hp] at hc
            simp at hc
          · exact Or.inr (List.mem_append.mpr (Or.inr hc))
        · simp only [hp, hrp] at hpr ⊢
          rw [(stepRightPressed_facts inp s rp m).2.2, hp] at hpr
          simp at hpr
      · simp only [hp] at hpr ⊢
        have hres := (stepPressed_facts inp s p m).2.2 hpr
        rw [hp] at hres
        exact Or.inl hres

/-- Witness for C6 at node 7 with one held frame in between. -/
theorem press_release_order_witness :
    (((run (initState fun _ => freshStatus)
        (pressInput 7 :: (List.replicate 1 (pressInput 7) ++ [releaseInput 7]))).2).filter
          (claimEv 7)
      = [Ev.cb "on_start_press" 7, Ev.cb "on_stop_press" 7, Ev.cb "on_click" 7,
         Ev.cb "on_select" 7])
    ∧ (∀ (inp : FrameInput) (s : IState) (m : Nat),
        Ev.cb "on_select" m ∈ (step inp s).2 →
        ∃ l1 l2, (step inp s).2 = l1 ++ Ev.cb "on_stop_press" m :: l2
          ∧ Ev.cb "on_select" m ∈ l2)
    ∧ (∀ (inp : FrameInput) (s : IState) (m : Nat),
        Ev.cb "on_click" m ∈ (step inp s).2 → s.pressed_el = some m)
    ∧ (∀ (inp : FrameInput) (s : IState) (m : Nat),
        (step inp s).1.pressed_el = some m →
        s.pressed_el = some m ∨ Ev.cb "on_start_press" m ∈ (step inp s).2) :=
  press_release_order (fun _ => freshStatus) 7 1 rfl


/-! ### C4: destruction (element.py `destroy`, lines 188-206)

The destruction-relevant state of one element: the anchor slot sequence
`_anchors` (a fixed-order mapping from slot names to optional anchor data;
here each slot keeps only the id of its target element), the back-reference
list `_anchor_observers`, `children`, `ghost_element`, `parent` and the
`can_destroy` flag.  Elements are named by `Nat` ids; layout-only fields
(rects, dirtiness) are not tracked, so the `_refresh_stack`/`set_dirty`
calls inside `remove_child` and the empty `on_destroy` hook are no-ops in
this model.  The manager registries `_all_elements` and `_event_callbacks`
are id lists. -/

structure DElem where
  anchors : List (Option Nat)
  anchor_observers : List Nat
  children : List Nat
  ghost : Option Nat
  parent : Nat
  can_destroy : Bool

structure DWorld where
  elems : Nat → DElem
  all_elements : List Nat
  event_callbacks : List Nat

/-- Replace the state of element `i` in the world. -/
def updElem (w : DWorld) (i : Nat) (g : DElem → DElem) : DWorld :=
  { w with elems := fun j => if j = i then g (w.elems j) else w.elems j }

/-- element.py lines 904-908, `_remove_dead_anchor`: walk the anchor slots
in order, set the first slot whose target is the dead element to `None`,
then `break`. -/
def clearFirst : List (Option Nat) → Nat → List (Option Nat)
  | [], _ => []
  | a :: rest, d => if a = some d then none :: rest else a :: clearFirst rest d

def removeDeadAnchor (e : DElem) (dead : Nat) : DElem :=
  { e with anchors := clearFirst e.anchors dead }

/-- The observer loop of `destroy` (element.py lines 193-194): every entry
of the observer list of `i` gets `_remove_dead_anchor i` applied, in list
order. -/
def obsFold (l : List Nat) (i : Nat) (w : DWorld) : DWorld :=
  l.foldl (fun acc o => updElem acc o (fun e => removeDeadAnchor e i)) w

def obsPass (w : DWorld) (i : Nat) : DWorld :=
  obsFold ((w.elems i).anchor_observers) i w

/-- The per-slot observer deregistration of `remove_anchors` (element.py
lines 376-383): each non-empty slot removes one occurrence of `i` from the
observer list of its target (Python `list.remove`, which under the
well-formedness invariants used below always finds the entry; `List.erase`
matches it). -/
def eraseObsPass (l : List (Option Nat)) (i : Nat) (w : DWorld) : DWorld :=
  l.foldl (fun acc t => match t with
    | none => acc
    | some tid => updElem acc tid
        (fun e => { e with anchor_observers := e.anchor_observers.erase i })) w

/-- element.py lines 376-383, `remove_anchors` with no skips: deregister
from each target, then every slot is `None`. -/
def remove_anchors (w : DWorld) (i : Nat) : DWorld :=
  updElem (eraseObsPass ((w.elems i).anchors) i w) i
    (fun e => { e with anchors := e.anchors.map (fun _ => none) })

/-- element.py lines 196-197: a ghost element is force-destroyed. -/
def ghostPass (rc : DWorld → Nat → DWorld) (w : DWorld) (i : Nat) : DWorld :=
  match (w.elems i).ghost with
  | none => w
  | some g => rc w g

/-- element.py line 198 with `remove_child` (lines 171-177): the parent
drops `i` from its children if present. -/
def parentPass (w : DWorld) (i : Nat) : DWorld :=
  updElem w ((w.elems i).parent)
    (fun e => if i ∈ e.children then { e with children := e.children.erase i } else e)

/-- element.py lines 199-200: every child (snapshot of the current list)
is force-destroyed in order. -/
def childrenPass (rc : DWorld → Nat → DWorld) (w : DWorld) (i : Nat) : DWorld :=
  ((w.elems i).children).foldl rc w

/-- element.py line 201: `self.children.clear()`. -/
def clearChildren (w : DWorld) (i : Nat) : DWorld :=
  updElem w i (fun e => { e with children := [] })

/-- element.py lines 202-205: guarded removal from the manager registries. -/
def unregister (w : DWorld) (i : Nat) : DWorld :=
  { w with
    all_elements := if i ∈ w.all_elements then w.all_elements.erase i else w.all_elements
    event_callbacks :=
      if i ∈ w.event_callbacks then w.event_callbacks.erase i else w.event_callbacks }

/-- element.py lines 188-206, `destroy`, with a structural fuel bound on
recursion depth (ghost and child destruction recurse with `force=True`). -/
def destroy : Nat → DWorld → Nat → Bool → DWorld
  | 0, w, _, _ => w
  | f+1, w, i, force =>
    if !(w.elems i).can_destroy && !force then w
    else
      unregister (clearChildren (childrenPass (fun acc c => destroy f acc c true)
        (parentPass (ghostPass (fun acc c => destroy f acc c true)
          (remove_anchors (obsPass w i) i) i) i) i) i) i

/-! Helper lemmas. -/

lemma updElem_elems (w : DWorld) (i : Nat) (g : DElem → DElem) (o : Nat) :
    (updElem w i g).elems o = if o = i then g (w.elems o) else w.elems o := rfl

lemma updElem_all (w : DWorld) (i : Nat) (g : DElem → DElem) :
    (updElem w i g).all_elements = w.all_elements := rfl

lemma updElem_ecb (w : DWorld) (i : Nat) (g : DElem → DElem) :
    (updElem w i g).event_callbacks = w.event_callbacks := rfl

lemma clearFirst_count_self (l : List (Option Nat)) (d : Nat) :
    (clearFirst l d).count (some d) = l.count (some d) - 1 := by
  induction l with
  | nil => rfl
  | cons a rest ih =>
    by_cases ha : a = some d
    · simp [clearFirst, ha, List.count_cons]
    · simp [clearFirst, ha, List.count_cons, ih]

lemma clearFirst_count_le (l : List (Option Nat)) (d e : Nat) :
    (clearFirst l d).count (some e) ≤ l.count (some e) := by
  induction l with
  | nil => exact Nat.le_refl _
  | cons a rest ih =>
    by_cases ha : a = some d
    · simp [clearFirst, ha, List.count_cons]
    · simp [clearFirst, ha, List.count_cons]
      exact ih

lemma count_map_none (l : List (Option Nat)) (d : Nat) :
    (l.map (fun _ => (none : Option Nat))).count (some d) = 0 := by
  rw [List.count_eq_zero]
  intro hmem
  rcases List.mem_map.mp hmem with ⟨a, _, ha⟩
  exact Option.noConfusion ha

/-- Shape of the observer loop: only the anchor slots of the listed
observers change; the count of slots targeting `i` drops by the number of
occurrences in the list (truncated), every slot count is monotone, and an
element absent from the list is untouched. -/
lemma obsFold_facts (i : Nat) :
    ∀ (l : List Nat) (w : DWorld) (o : Nat),
    ((obsFold l i w).elems o).anchor_observers = ((w.elems o).anchor_observers)
    ∧ ((obsFold l i w).elems o).children = ((w.elems o).children)
    ∧ ((obsFold l i w).elems o).ghost = ((w.elems o).ghost)
    ∧ ((obsFold l i w).elems o).parent = ((w.elems o).parent)
    ∧ ((obsFold l i w).elems o).can_destroy = ((w.elems o).can_destroy)
    ∧ (obsFold l i w).all_elements = w.all_elements
    ∧ (obsFold l i w).event_callbacks = w.event_callbacks
    ∧ (((obsFold l i w).elems o).anchors).count (some i)
        = (((w.elems o).anchors).count (some i)) - l.count o
    ∧ (∀ d, (((obsFold l i w).elems o).anchors).count (some d)
        ≤ ((w.elems o).anchors).count (some d))
    ∧ (l.count o = 0 → ((obsFold l i w).elems o).anchors = (w.elems o).anchors) := by
  intro l
  induction l with
  | nil =>
    intro w o
    refine ⟨rfl, rfl, rfl, rfl, rfl, rfl, rfl, ?_, fun d => Nat.le_refl _, fun _ => rfl⟩
    simp [obsFold]
  | cons o0 rest ih =>
    intro w o
    have hstep : obsFold (o0 :: rest) i w
        = obsFold rest i (updElem w o0 (fun e => removeDeadAnchor e i)) := rfl
    obtain ⟨r1, r2, r3, r4, r5, r6, r7, r8, r9, r10⟩ :=
      ih (updElem w o0 (fun e => removeDeadAnchor e i)) o
    by_cases ho : o = o0
    · subst ho
      have hu : (updElem w o (fun e => removeDeadAnchor e i)).elems o
          = removeDeadAnchor (w.elems o) i := by
        rw [updElem_elems]
        simp
      refine ⟨?_, ?_, ?_, ?_, ?_, ?_, ?_, ?_, ?_, ?_⟩
      · rw [hstep, r1, hu]; rfl
      · rw [hstep, r2, hu]; rfl
      · rw [hstep, r3, hu]; rfl
      · rw [hstep, r4, hu]; rfl
      · rw [hstep, r5, hu]; rfl
      · rw [hstep, r6]; rfl
      · rw [hstep, r7]; rfl
      · rw [hstep, r8, hu]
        show (clearFirst ((w.elems o).anchors) i).count (some i) - rest.count o = _
        rw [clearFirst_count_self]
        simp [List.count_cons]
        omega
      · intro d
        refine Nat.le_trans (Nat.le_trans (r9 d) (Nat.le_of_eq (by rw [hu]))) ?_
        exact clearFirst_count_le _ _ _
      · intro hz
        simp [List.count_cons] at hz
    · have hu : (updElem w o0 (fun e => removeDeadAnchor e i)).elems o = w.elems o := by
        rw [updElem_elems]
        simp [ho]
      refine ⟨?_, ?_, ?_, ?_, ?_, ?_, ?_, ?_, ?_, ?_⟩
      · rw [hstep, r1, hu]
      · rw [hstep, r2, hu]
      · rw [hstep, r3, hu]
      · rw [hstep, r4, hu]
      · rw [hstep, r5, hu]
      · rw [hstep, r6]; rfl
      · rw [hstep, r7]; rfl
      · rw [hstep, r8, hu]
        have hco : (o0 :: rest).count o = rest.count o := by
          simp [List.count_cons]
          intro h
          exact absurd h.symm ho
        rw [hco]
      · intro d
        exact Nat.le_trans (r9 d) (Nat.le_of_eq (by rw [hu]))
      · intro hz
        have hz' : rest.count o = 0 := by
          simp [List.count_cons] at hz
          omega
        rw [hstep, r10 hz', hu]

/-- Shape of the observer deregistration loop: only observer lists of the
listed targets change; the count of `i` drops by the number of slots
naming the target, all observer counts are monotone. -/
lemma eraseObs_facts (i : Nat) :
    ∀ (l : List (Option Nat)) (w : DWorld) (t : Nat),
    ((eraseObsPass l i w).elems t).anchors = ((w.elems t).anchors)
    ∧ ((eraseObsPass l i w).elems t).children = ((w.elems t).children)
    ∧ ((eraseObsPass l i w).elems t).ghost = ((w.elems t).ghost)
    ∧ ((eraseObsPass l i w).elems t).parent = ((w.elems t).parent)
    ∧ ((eraseObsPass l i w).elems t).can_destroy = ((w.elems t).can_destroy)
    ∧ (eraseObsPass l i w).all_elements = w.all_elements
    ∧ (eraseObsPass l i w).event_callbacks = w.event_callbacks
    ∧ (((eraseObsPass l i w).elems t).anchor_observers).count i
        = (((w.elems t).anchor_observers).count i) - l.count (some t)
    ∧ (∀ x, (((eraseObsPass l i w).elems t).anchor_observers).count x
        ≤ ((w.elems t).anchor_observers).count x) := by
  intro l
  induction l with
  | nil =>
    intro w t
    refine ⟨rfl, rfl, rfl, rfl, rfl, rfl, rfl, ?_, fun x => Nat.le_refl _⟩
    simp [eraseObsPass]
  | cons a rest ih =>
    intro w t
    rcases a with _ | u
    · have hstep : eraseObsPass (none :: rest) i w = eraseObsPass rest i w := rfl
      obtain ⟨r1, r2, r3, r4, r5, r6, r7, r8, r9⟩ := ih w t
      have hcz : (List.count (some t) (none :: rest)) = rest.count (some t) := by
        simp [List.count_cons]
      rw [hstep]
      exact ⟨r1, r2, r3, r4, r5, r6, r7, by rw [r8, hcz], r9⟩
    · have hstep : eraseObsPass (some u :: rest) i w
          = eraseObsPass rest i (updElem w u
            (fun e => { e with anchor_observers := e.anchor_observers.erase i })) := rfl
      obtain ⟨r1, r2, r3, r4, r5, r6, r7, r8, r9⟩ :=
        ih (updElem w u
          (fun e => { e with anchor_observers := e.anchor_observers.erase i })) t
      by_cases ht : t = u
      · subst ht
        have hu : (updElem w t
            (fun e => { e with anchor_observers := e.anchor_observers.erase i })).elems t
            = { w.elems t with anchor_observers := (w.elems t).anchor_observers.erase i } := by
          rw [updElem_elems]
          simp
        refine ⟨?_, ?_, ?_, ?_, ?_, ?_, ?_, ?_, ?_⟩
        · rw [hstep, r1, hu]
        · rw [hstep, r2, hu]
        · rw [hstep, r3, hu]
        · rw [hstep, r4, hu]
        · rw [hstep, r5, hu]
        · rw [hstep, r6]; rfl
        · rw [hstep, r7]; rfl
        · rw [hstep, r8, hu]
          show ((w.elems t).anchor_observers.erase i).count i - rest.count (some t) = _
          rw [List.count_erase_self]
          have hcc : (List.count (some t) (some t :: rest)) = rest.count (some t) + 1 := by
            simp [List.count_cons]
          rw [hcc]
          omega
        · intro x
          refine Nat.le_trans (Nat.le_trans (r9 x) (Nat.le_of_eq (by rw [hu]))) ?_
          exact (List.erase_sublist i _).count_le x
      · have hu : (updElem w u
            (fun e => { e with anchor_observers := e.anchor_observers.erase i })).elems t
            = w.elems t := by
          rw [updElem_elems]
          simp [ht]
        have hcc : (List.count (some t) (some u :: rest)) = rest.count (some t) := by
          simp [List.count_cons]
          intro h
          exact absurd h.symm ht
        refine ⟨?_, ?_, ?_, ?_, ?_, ?_, ?_, ?_, ?_⟩
        · rw [hstep, r1, hu]
        · rw [hstep, r2, hu]
        · rw [hstep, r3, hu]
        · rw [hstep, r4, hu]
        · rw [hstep, r5, hu]
        · rw [hstep, r6]; rfl
        · rw [hstep, r7]; rfl
        · rw [hstep, r8, hu, hcc]
        · intro x
          exact Nat.le_trans (r9 x) (Nat.le_of_eq (by rw [hu]))

/-- Pointwise monotonicity of the destruction-relevant reference counts:
anchor-slot counts, observer counts and registry counts never grow. -/
def WLE (wa wb : DWorld) : Prop :=
  (∀ o d, (((wa.elems o).anchors).count (some d)) ≤ ((wb.elems o).anchors).count (some d))
  ∧ (∀ o x, (((wa.elems o).anchor_observers).count x)
      ≤ ((wb.elems o).anchor_observers).count x)
  ∧ (∀ x, ((wa.all_elements).count x) ≤ (wb.all_elements).count x)
  ∧ (∀ x, ((wa.event_callbacks).count x) ≤ (wb.event_callbacks).count x)

lemma WLE_refl (w : DWorld) : WLE w w :=
  ⟨fun _ _ => Nat.le_refl _, fun _ _ => Nat.le_refl _,
   fun _ => Nat.le_refl _, fun _ => Nat.le_refl _⟩

lemma WLE_trans {w2 w1 w0 : DWorld} (h2 : WLE w2 w1) (h1 : WLE w1 w0) : WLE w2 w0 :=
  ⟨fun o d => Nat.le_trans (h2.1 o d) (h1.1 o d),
   fun o x => Nat.le_trans (h2.2.1 o x) (h1.2.1 o x),
   fun x => Nat.le_trans (h2.2.2.1 x) (h1.2.2.1 x),
   fun x => Nat.le_trans (h2.2.2.2 x) (h1.2.2.2 x)⟩

lemma WLE_obsPass (w : DWorld) (i : Nat) : WLE (obsPass w i) w := by
  refine ⟨?_, ?_, ?_, ?_⟩
  · intro o d
    exact (obsFold_facts i ((w.elems i).anchor_observers) w o).2.2.2.2.2.2.2.2.1 d
  · intro o x
    apply Nat.le_of_eq
    simp only [obsPass]
    rw [(obsFold_facts i ((w.elems i).anchor_observers) w o).1]
  · intro x
    apply Nat.le_of_eq
    simp only [obsPass]
    rw [(obsFold_facts i ((w.elems i).anchor_observers) w 0).2.2.2.2.2.1]
  · intro x
    apply Nat.le_of_eq
    simp only [obsPass]
    rw [(obsFold_facts i ((w.elems i).anchor_observers) w 0).2.2.2.2.2.2.1]

lemma WLE_remove_anchors (w : DWorld) (i : Nat) : WLE (remove_anchors w i) w := by
  refine ⟨?_, ?_, ?_, ?_⟩
  · intro o d
    rw [remove_anchors, updElem_elems]
    by_cases ho : o = i
    · simp only [ho, if_pos rfl]
      show ((((eraseObsPass ((w.elems i).anchors) i w).elems i).anchors).map
        (fun _ => none)).count (some d) ≤ _
      rw [count_map_none]
      exact Nat.zero_le _
    · simp only [if_neg ho]
      rw [(eraseObs_facts i ((w.elems i).anchors) w o).1]
  · intro o x
    rw [remove_anchors, updElem_elems]
    by_cases ho : o = i
    · simp only [ho, if_pos rfl]
      show (((eraseObsPass ((w.elems i).anchors) i w).elems i).anchor_observers).count x ≤ _
      exact (eraseObs_facts i ((w.elems i).anchors) w i).2.2.2.2.2.2.2.2 x
    · simp only [if_neg ho]
      exact (eraseObs_facts i ((w.elems i).anchors) w o).2.2.2.2.2.2.2.2 x
  · intro x
    rw [remove_anchors, updElem_all,
      (eraseObs_facts i ((w.elems i).anchors) w 0).2.2.2.2.2.1]
  · intro x
    rw [remove_anchors, updElem_ecb,
      (eraseObs_facts i ((w.elems i).anchors) w 0).2.2.2.2.2.2.1]

lemma WLE_updElem_children (w : DWorld) (j : Nat) (g : DElem → DElem)
    (ha : ∀ e, (g e).anchors = e.anchors)
    (hb : ∀ e, (g e).anchor_observers = e.anchor_observers) :
    WLE (updElem w j g) w := by
  refine ⟨?_, ?_, fun x => Nat.le_refl _, fun x => Nat.le_refl _⟩
  · intro o d
    apply Nat.le_of_eq
    by_cases ho : o = j
    · subst ho
      rw [updElem_elems, if_pos rfl, ha]
    · rw [updElem_elems, if_neg ho]
  · intro o x
    apply Nat.le_of_eq
    by_cases ho : o = j
    · subst ho
      rw [updElem_elems, if_pos rfl, hb]
    · rw [updElem_elems, if_neg ho]

lemma WLE_parentPass (w : DWorld) (i : Nat) : WLE (parentPass w i) w := by
  refine WLE_updElem_children _ _ _ ?_ ?_ <;> intro e <;> by_cases hc : i ∈ e.children
  · simp [hc]
  · simp [hc]
  · simp [hc]
  · simp [hc]

lemma WLE_clearChildren (w : DWorld) (i : Nat) : WLE (clearChildren w i) w :=
  WLE_updElem_children _ _ _ (fun _ => rfl) (fun _ => rfl)

lemma WLE_unregister (w : DWorld) (i : Nat) : WLE (unregister w i) w := by
  refine ⟨fun o d => Nat.le_refl _, fun o x => Nat.le_refl _, ?_, ?_⟩
  · intro x
    show (if i ∈ w.all_elements then w.all_elements.erase i else w.all_elements).count x ≤ _
    split
    · exact (List.erase_sublist i _).count_le x
    · exact Nat.le_refl _
  · intro x
    show (if i ∈ w.event_callbacks then w.event_callbacks.erase i
      else w.event_callbacks).count x ≤ _
    split
    · exact (List.erase_sublist i _).count_le x
    · exact Nat.le_refl _

lemma WLE_destroy : ∀ (f : Nat) (w : DWorld) (i : Nat) (force : Bool),
    WLE (destroy f w i force) w := by
  intro f
  induction f with
  | zero => intro w i force; exact WLE_refl w
  | succ f ih =>
    have hfold : ∀ (l : List Nat) (w : DWorld),
        WLE (l.foldl (fun acc c => destroy f acc c true) w) w := by
      intro l
      induction l with
      | nil => intro w; exact WLE_refl w
      | cons c rest ihl =>
        intro w
        exact WLE_trans (ihl (destroy f w c true)) (ih w c true)
    intro w i force
    show WLE (destroy (f+1) w i force) w
    rw [destroy]
    by_cases hg : (!(w.elems i).can_destroy && !force) = true
    · rw [if_pos hg]; exact WLE_refl w
    · rw [if_neg hg]
      have hghost : ∀ (wx : DWorld),
          WLE (ghostPass (fun acc c => destroy f acc c true) wx i) wx := by
        intro wx
        rw [ghostPass]
        rcases (wx.elems i).ghost with _ | g
        · exact WLE_refl wx
        · exact ih wx g true
      refine WLE_trans (WLE_unregister _ i) ?_
      refine WLE_trans (WLE_clearChildren _ i) ?_
      refine WLE_trans ?_ (WLE_trans
        (WLE_parentPass (ghostPass (fun acc c => destroy f acc c true)
          (remove_anchors (obsPass w i) i) i) i)
        (WLE_trans (hghost (remove_anchors (obsPass w i) i))
          (WLE_trans (WLE_remove_anchors (obsPass w i) i) (WLE_obsPass w i))))
      rw [childrenPass]
      exact hfold _ _


lemma WLE_childFold (f : Nat) : ∀ (l : List Nat) (w : DWorld),
    WLE (l.foldl (fun acc c => destroy f acc c true) w) w := by
  intro l
  induction l with
  | nil => intro w; exact WLE_refl w
  | cons c rest ihl =>
    intro w
    exact WLE_trans (ihl (destroy f w c true)) (WLE_destroy f w c true)

lemma obsPass_facts (w : DWorld) (i : Nat) :
    (∀ o, (((obsPass w i).elems o).anchors).count (some i)
        = (((w.elems o).anchors).count (some i))
          - ((w.elems i).anchor_observers).count o)
    ∧ (∀ o, ((obsPass w i).elems o).anchor_observers = ((w.elems o).anchor_observers))
    ∧ (∀ o, ((obsPass w i).elems o).children = ((w.elems o).children))
    ∧ (∀ o, ((obsPass w i).elems o).ghost = ((w.elems o).ghost))
    ∧ (∀ o, ((obsPass w i).elems o).parent = ((w.elems o).parent))
    ∧ (∀ o, ((obsPass w i).elems o).can_destroy = ((w.elems o).can_destroy))
    ∧ (obsPass w i).all_elements = w.all_elements
    ∧ (obsPass w i).event_callbacks = w.event_callbacks
    ∧ (((w.elems i).anchor_observers).count i = 0 →
        ((obsPass w i).elems i).anchors = (w.elems i).anchors) := by
  refine ⟨?_, ?_, ?_, ?_, ?_, ?_, ?_, ?_, ?_⟩
  · intro o
    exact (obsFold_facts i ((w.elems i).anchor_observers) w o).2.2.2.2.2.2.2.1
  · intro o
    exact (obsFold_facts i ((w.elems i).anchor_observers) w o).1
  · intro o
    exact (obsFold_facts i ((w.elems i).anchor_observers) w o).2.1
  · intro o
    exact (obsFold_facts i ((w.elems i).anchor_observers) w o).2.2.1
  · intro o
    exact (obsFold_facts i ((w.elems i).anchor_observers) w o).2.2.2.1
  · intro o
    exact (obsFold_facts i ((w.elems i).anchor_observers) w o).2.2.2.2.1
  · exact (obsFold_facts i ((w.elems i).anchor_observers) w 0).2.2.2.2.2.1
  · exact (obsFold_facts i ((w.elems i).anchor_observers) w 0).2.2.2.2.2.2.1
  · intro hz
    exact (obsFold_facts i ((w.elems i).anchor_observers) w i).2.2.2.2.2.2.2.2.2 hz

lemma remove_anchors_facts (w : DWorld) (i : Nat) :
    (∀ t, (((remove_anchors w i).elems t).anchor_observers).count i
        = (((w.elems t).anchor_observers).count i)
          - ((w.elems i).anchors).count (some t))
    ∧ (∀ o, o ≠ i → ((remove_anchors w i).elems o).anchors = ((w.elems o).anchors))
    ∧ ((remove_anchors w i).elems i).anchors
        = ((w.elems i).anchors).map (fun _ => none)
    ∧ (∀ o, ((remove_anchors w i).elems o).children = ((w.elems o).children))
    ∧ (∀ o, ((remove_anchors w i).elems o).ghost = ((w.elems o).ghost))
    ∧ (∀ o, ((remove_anchors w i).elems o).parent = ((w.elems o).parent))
    ∧ (remove_anchors w i).all_elements = w.all_elements
    ∧ (remove_anchors w i).event_callbacks = w.event_callbacks := by
  have hE := fun t => eraseObs_facts i ((w.elems i).anchors) w t
  refine ⟨?_, ?_, ?_, ?_, ?_, ?_, ?_, ?_⟩
  · intro t
    rw [remove_anchors, updElem_elems]
    by_cases ht : t = i
    · rw [if_pos ht]
      show (((eraseObsPass ((w.elems i).anchors) i w).elems t).anchor_observers).count i = _
      exact (hE t).2.2.2.2.2.2.2.1
    · rw [if_neg ht]
      exact (hE t).2.2.2.2.2.2.2.1
  · intro o ho
    rw [remove_anchors, updElem_elems, if_neg ho]
    exact (hE o).1
  · rw [remove_anchors, updElem_elems, if_pos rfl]
    show (((eraseObsPass ((w.elems i).anchors) i w).elems i).anchors).map _ = _
    rw [(hE i).1]
  · intro o
    rw [remove_anchors, updElem_elems]
    by_cases ho : o = i
    · subst ho
      rw [if_pos rfl]
      exact (hE o).2.1
    · rw [if_neg ho]
      exact (hE o).2.1
  · intro o
    rw [remove_anchors, updElem_elems]
    by_cases ho : o = i
    · subst ho
      rw [if_pos rfl]
      exact (hE o).2.2.1
    · rw [if_neg ho]
      exact (hE o).2.2.1
  · intro o
    rw [remove_anchors, updElem_elems]
    by_cases ho : o = i
    · subst ho
      rw [if_pos rfl]
      exact (hE o).2.2.2.1
    · rw [if_neg ho]
      exact (hE o).2.2.2.1
  · rw [remove_anchors, updElem_all]
    exact (hE 0).2.2.2.2.2.1
  · rw [remove_anchors, updElem_ecb]
    exact (hE 0).2.2.2.2.2.2.1

lemma parentPass_facts (w : DWorld) (i : Nat) :
    (∀ o, ((parentPass w i).elems o).anchors = ((w.elems o).anchors))
    ∧ (∀ o, ((parentPass w i).elems o).anchor_observers = ((w.elems o).anchor_observers))
    ∧ (∀ o, ((parentPass w i).elems o).ghost = ((w.elems o).ghost))
    ∧ (parentPass w i).all_elements = w.all_elements
    ∧ (parentPass w i).event_callbacks = w.event_callbacks
    ∧ (i ∉ (w.elems i).children →
        ((parentPass w i).elems i).children = ((w.elems i).children)) := by
  refine ⟨?_, ?_, ?_, rfl, rfl, ?_⟩
  · intro o
    rw [parentPass, updElem_elems]
    by_cases ho : o = (w.elems i).parent
    · rw [if_pos ho]
      by_cases hc : i ∈ (w.elems o).children
      · rw [if_pos hc]
      · rw [if_neg hc]
    · rw [if_neg ho]
  · intro o
    rw [parentPass, updElem_elems]
    by_cases ho : o = (w.elems i).parent
    · rw [if_pos ho]
      by_cases hc : i ∈ (w.elems o).children
      · rw [if_pos hc]
      · rw [if_neg hc]
    · rw [if_neg ho]
  · intro o
    rw [parentPass, updElem_elems]
    by_cases ho : o = (w.elems i).parent
    · rw [if_pos ho]
      by_cases hc : i ∈ (w.elems o).children
      · rw [if_pos hc]
      · rw [if_neg hc]
    · rw [if_neg ho]
  · intro hch
    rw [parentPass, updElem_elems]
    by_cases hi : i = (w.elems i).parent
    · rw [if_pos hi, if_neg hch]
    · rw [if_neg hi]

lemma clearChildren_facts (w : DWorld) (i : Nat) :
    (∀ o, ((clearChildren w i).elems o).anchors = ((w.elems o).anchors))
    ∧ (∀ o, ((clearChildren w i).elems o).anchor_observers
        = ((w.elems o).anchor_observers))
    ∧ (clearChildren w i).all_elements = w.all_elements
    ∧ (clearChildren w i).event_callbacks = w.event_callbacks := by
  refine ⟨?_, ?_, rfl, rfl⟩
  · intro o
    rw [clearChildren, updElem_elems]
    by_cases ho : o = i
    · rw [if_pos ho]
    · rw [if_neg ho]
  · intro o
    rw [clearChildren, updElem_elems]
    by_cases ho : o = i
    · rw [if_pos ho]
    · rw [if_neg ho]

/-- A destroyed element with a unique registry entry is gone from
`_all_elements` afterwards. -/
lemma destroy_removes_self (f : Nat) (hf : 1 ≤ f) (w : DWorld) (c : Nat)
    (hc : (w.all_elements).count c ≤ 1) :
    c ∉ (destroy f w c true).all_elements := by
  obtain ⟨f0, rfl⟩ : ∃ f0, f = f0 + 1 := ⟨f - 1, by omega⟩
  rw [destroy, if_neg (by simp)]
  have hbody : WLE (clearChildren (childrenPass (fun acc c => destroy f0 acc c true)
      (parentPass (ghostPass (fun acc c => destroy f0 acc c true)
        (remove_anchors (obsPass w c) c) c) c) c) c) w := by
    refine WLE_trans (WLE_clearChildren _ c) ?_
    refine WLE_trans ?_ (WLE_trans
      (WLE_parentPass (ghostPass (fun acc c => destroy f0 acc c true)
        (remove_anchors (obsPass w c) c) c) c)
      (WLE_trans ?_ (WLE_trans (WLE_remove_anchors (obsPass w c) c) (WLE_obsPass w c))))
    · rw [childrenPass]
      exact WLE_childFold f0 _ _
    · rw [ghostPass]
      rcases ((remove_anchors (obsPass w c) c).elems c).ghost with _ | g
      · exact WLE_refl _
      · exact WLE_destroy f0 _ g true
  have hc6 : ((clearChildren (childrenPass (fun acc c => destroy f0 acc c true)
      (parentPass (ghostPass (fun acc c => destroy f0 acc c true)
        (remove_anchors (obsPass w c) c) c) c) c) c).all_elements).count c ≤ 1 :=
    Nat.le_trans (hbody.2.2.1 c) hc
  show c ∉ (if c ∈ _ then List.erase _ c else _)
  by_cases hm : c ∈ (clearChildren (childrenPass (fun acc c => destroy f0 acc c true)
      (parentPass (ghostPass (fun acc c => destroy f0 acc c true)
        (remove_anchors (obsPass w c) c) c) c) c) c).all_elements
  · rw [if_pos hm]
    apply List.count_eq_zero.mp
    rw [List.count_erase_self]
    have hpos : ((clearChildren (childrenPass (fun acc c => destroy f0 acc c true)
        (parentPass (ghostPass (fun acc c => destroy f0 acc c true)
          (remove_anchors (obsPass w c) c) c) c) c) c).all_elements).count c ≠ 0 :=
      fun hz => (List.count_eq_zero.mp hz) hm
    omega
  · rw [if_neg hm]
    exact hm

/-- Destroying a list of elements in turn removes each of them, as long as
every one has at most one registry entry. -/
lemma fold_destroy_removes (f : Nat) (hf : 1 ≤ f) :
    ∀ (l : List Nat) (w : DWorld),
    (∀ c ∈ l, (w.all_elements).count c ≤ 1) →
    ∀ c ∈ l, c ∉ (l.foldl (fun acc x => destroy f acc x true) w).all_elements := by
  intro l
  induction l with
  | nil =>
    intro w _ c hc
    exact absurd hc (List.not_mem_nil c)
  | cons c0 rest ih =>
    intro w hcl c hc
    have hstep : (c0 :: rest).foldl (fun acc x => destroy f acc x true) w
        = rest.foldl (fun acc x => destroy f acc x true) (destroy f w c0 true) := rfl
    rw [hstep]
    rcases List.mem_cons.mp hc with rfl | hcr
    · have h0 : c ∉ (destroy f w c true).all_elements :=
        destroy_removes_self f hf w c (hcl c (List.mem_cons_self c rest))
      have hwle := WLE_childFold f rest (destroy f w c true)
      have hz : ((destroy f w c true).all_elements).count c = 0 :=
        List.count_eq_zero.mpr h0
      apply List.count_eq_zero.mp
      have := hwle.2.2.1 c
      omega
    · apply ih (destroy f w c0 true) _ c hcr
      intro x hx
      exact Nat.le_trans ((WLE_destroy f w c0 true).2.2.1 x)
        (hcl x (List.mem_cons_of_mem c0 hx))

/-- C4: `destroy()` on a node `D` whose `can_destroy` flag is set (or with
`force=True`) leaves no anchor slot of any node referencing `D`, removes
`D` from the anchor-observer list of every node, removes `D` from the
manager registries `_all_elements` and `_event_callbacks`, and every child
of `D` is recursively force-destroyed and hence gone from `_all_elements`.
Assumed well-formedness: each anchor slot naming a target is matched by an
observer entry and vice versa (the two count inequalities, maintained by
`set_anchor`), `D` does not observe itself, has no ghost element, is not
its own child, registry entries are unique, and the fuel covers the tree
depth. -/
theorem destroy_cleans (w : DWorld) (D : Nat) (force : Bool) (f : Nat)
    (hf : 2 ≤ f)
    (hcd : (w.elems D).can_destroy = true ∨ force = true)
    (hobs : ∀ o, (((w.elems o).anchors).count (some D))
        ≤ ((w.elems D).anchor_observers).count o)
    (hsrc : ∀ t, (((w.elems t).anchor_observers).count D)
        ≤ ((w.elems D).anchors).count (some t))
    (hDobs : ((w.elems D).anchor_observers).count D = 0)
    (hghost : (w.elems D).ghost = none)
    (hDch : D ∉ (w.elems D).children)
    (hcnt : ∀ x, ((w.all_elements).count x) ≤ 1)
    (hcntE : ∀ x, ((w.event_callbacks).count x) ≤ 1) :
    (∀ o, some D ∉ ((destroy f w D force).elems o).anchors)
    ∧ (∀ t, D ∉ ((destroy f w D force).elems t).anchor_observers)
    ∧ D ∉ (destroy f w D force).all_elements
    ∧ D ∉ (destroy f w D force).event_callbacks
    ∧ (∀ c ∈ (w.elems D).children, c ∉ (destroy f w D force).all_elements) := by
  obtain ⟨f1, rfl⟩ : ∃ f1, f = f1 + 1 := ⟨f - 1, by omega⟩
  have hf1 : 1 ≤ f1 := by omega
  have hguard : ¬((!(w.elems D).can_destroy && !force) = true) := by
    rcases hcd with h | h <;> simp [h]
  have hdef : destroy (f1 + 1) w D force
      = unregister (clearChildren (childrenPass (fun acc c => destroy f1 acc c true)
        (parentPass (ghostPass (fun acc c => destroy f1 acc c true)
          (remove_anchors (obsPass w D) D) D) D) D) D) D := by
    rw [destroy, if_neg hguard]
  rw [hdef]
  set w1 := obsPass w D with hw1
  set w2 := remove_anchors w1 D with hw2
  set w3 := ghostPass (fun acc c => destroy f1 acc c true) w2 D with hw3
  set w4 := parentPass w3 D with hw4
  set w5 := childrenPass (fun acc c => destroy f1 acc c true) w4 D with hw5
  set w6 := clearChildren w5 D with hw6
  -- stage 1: the observer loop clears every slot referencing D
  have ha1 : ∀ o, (((w1.elems o).anchors).count (some D)) = 0 := by
    intro o
    rw [hw1, (obsPass_facts w D).1 o]
    exact Nat.sub_eq_zero_of_le (hobs o)
  have hobs1 : ∀ o, (w1.elems o).anchor_observers = (w.elems o).anchor_observers := by
    intro o
    rw [hw1]
    exact (obsPass_facts w D).2.1 o
  have hch1 : ∀ o, (w1.elems o).children = (w.elems o).children := by
    intro o
    rw [hw1]
    exact (obsPass_facts w D).2.2.1 o
  have hgh1 : (w1.elems D).ghost = none := by
    rw [hw1, (obsPass_facts w D).2.2.2.1 D]
    exact hghost
  have hanchD1 : (w1.elems D).anchors = (w.elems D).anchors := by
    rw [hw1]
    exact (obsPass_facts w D).2.2.2.2.2.2.2.2 hDobs
  have hall1 : w1.all_elements = w.all_elements := by
    rw [hw1]
    exact (obsPass_facts w D).2.2.2.2.2.2.1
  have hecb1 : w1.event_callbacks = w.event_callbacks := by
    rw [hw1]
    exact (obsPass_facts w D).2.2.2.2.2.2.2.1
  -- stage 2: remove_anchors deregisters D everywhere
  have hb2 : ∀ t, (((w2.elems t).anchor_observers).count D) = 0 := by
    intro t
    rw [hw2, (remove_anchors_facts w1 D).1 t, hobs1 t, hanchD1]
    exact Nat.sub_eq_zero_of_le (hsrc t)
  have ha2 : ∀ o, (((w2.elems o).anchors).count (some D)) = 0 := by
    intro o
    by_cases ho : o = D
    · rw [ho, hw2, (remove_anchors_facts w1 D).2.2.1]
      exact count_map_none _ D
    · rw [hw2, (remove_anchors_facts w1 D).2.1 o ho]
      exact ha1 o
  have hch2 : ∀ o, (w2.elems o).children = (w.elems o).children := by
    intro o
    rw [hw2, (remove_anchors_facts w1 D).2.2.2.1 o]
    exact hch1 o
  have hgh2 : (w2.elems D).ghost = none := by
    rw [hw2, (remove_anchors_facts w1 D).2.2.2.2.1 D]
    exact hgh1
  have hall2 : w2.all_elements = w.all_elements := by
    rw [hw2, (remove_anchors_facts w1 D).2.2.2.2.2.2.1]
    exact hall1
  have hecb2 : w2.event_callbacks = w.event_callbacks := by
    rw [hw2, (remove_anchors_facts w1 D).2.2.2.2.2.2.2]
    exact hecb1
  -- stage 3: no ghost element, so the ghost pass is the identity
  have hw3eq : w3 = w2 := by
    rw [hw3, ghostPass, hgh2]
  -- stage 4: the parent drops D; nothing else changes
  have ha4 : ∀ o, (((w4.elems o).anchors).count (some D)) = 0 := by
    intro o
    rw [hw4, hw3eq, (parentPass_facts w2 D).1 o]
    exact ha2 o
  have hb4 : ∀ t, (((w4.elems t).anchor_observers).count D) = 0 := by
    intro t
    rw [hw4, hw3eq, (parentPass_facts w2 D).2.1 t]
    exact hb2 t
  have hch4 : (w4.elems D).children = (w.elems D).children := by
    rw [hw4, hw3eq, (parentPass_facts w2 D).2.2.2.2.2 (by rw [hch2 D]; exact hDch)]
    exact hch2 D
  have hall4 : w4.all_elements = w.all_elements := by
    rw [hw4, hw3eq, (parentPass_facts w2 D).2.2.2.1]
    exact hall2
  have hecb4 : w4.event_callbacks = w.event_callbacks := by
    rw [hw4, hw3eq, (parentPass_facts w2 D).2.2.2.2.1]
    exact hecb2
  -- stage 5: destroying the children never re-adds a reference
  have hw5eq : w5 = ((w.elems D).children).foldl
      (fun acc c => destroy f1 acc c true) w4 := by
    rw [hw5, childrenPass, hch4]
  have hwle5 : WLE w5 w4 := by
    rw [hw5eq]
    exact WLE_childFold f1 _ w4
  have ha5 : ∀ o, (((w5.elems o).anchors).count (some D)) = 0 := by
    intro o
    have := hwle5.1 o D
    have := ha4 o
    omega
  have hb5 : ∀ t, (((w5.elems t).anchor_observers).count D) = 0 := by
    intro t
    have := hwle5.2.1 t D
    have := hb4 t
    omega
  have hall5 : ∀ x, ((w5.all_elements).count x) ≤ 1 := by
    intro x
    have := hwle5.2.2.1 x
    have h4 : ((w4.all_elements).count x) ≤ 1 := by
      rw [hall4]
      exact hcnt x
    omega
  have hecb5 : ∀ x, ((w5.event_callbacks).count x) ≤ 1 := by
    intro x
    have := hwle5.2.2.2 x
    have h4 : ((w4.event_callbacks).count x) ≤ 1 := by
      rw [hecb4]
      exact hcntE x
    omega
  have hkids5 : ∀ c ∈ (w.elems D).children, c ∉ w5.all_elements := by
    rw [hw5eq]
    apply fold_destroy_removes f1 hf1 _ w4
    intro c _
    rw [hall4]
    exact hcnt c
  -- stage 6 and unregistration
  have ha6 : ∀ o, (((w6.elems o).anchors).count (some D)) = 0 := by
    intro o
    rw [hw6, (clearChildren_facts w5 D).1 o]
    exact ha5 o
  have hb6 : ∀ t, (((w6.elems t).anchor_observers).count D) = 0 := by
    intro t
    rw [hw6, (clearChildren_facts w5 D).2.1 t]
    exact hb5 t
  have hall6 : w6.all_elements = w5.all_elements := by
    rw [hw6]
    exact (clearChildren_facts w5 D).2.2.1
  have hecb6 : w6.event_callbacks = w5.event_callbacks := by
    rw [hw6]
    exact (clearChildren_facts w5 D).2.2.2
  refine ⟨?_, ?_, ?_, ?_, ?_⟩
  · intro o
    apply List.count_eq_zero.mp
    show (((w6.elems o).anchors).count (some D)) = 0
    exact ha6 o
  · intro t
    apply List.count_eq_zero.mp
    show (((w6.elems t).anchor_observers).count D) = 0
    exact hb6 t
  · show D ∉ (if D ∈ w6.all_elements then w6.all_elements.erase D else w6.all_elements)
    by_cases hm : D ∈ w6.all_elements
    · rw [if_pos hm]
      apply List.count_eq_zero.mp
      rw [List.count_erase_self]
      have hle : ((w6.all_elements).count D) ≤ 1 := by
        rw [hall6]
        exact hall5 D
      omega
    · rw [if_neg hm]
      exact hm
  · show D ∉ (if D ∈ w6.event_callbacks then w6.event_callbacks.erase D
      else w6.event_callbacks)
    by_cases hm : D ∈ w6.event_callbacks
    · rw [if_pos hm]
      apply List.count_eq_zero.mp
      rw [List.count_erase_self]
      have hle : ((w6.event_callbacks).count D) ≤ 1 := by
        rw [hecb6]
        exact hecb5 D
      omega
    · rw [if_neg hm]
      exact hm
  · intro c hc
    have h5 : c ∉ w5.all_elements := hkids5 c hc
    have h6 : c ∉ w6.all_elements := by
      rw [hall6]
      exact h5
    show c ∉ (if D ∈ w6.all_elements then w6.all_elements.erase D else w6.all_elements)
    by_cases hm : D ∈ w6.all_elements
    · rw [if_pos hm]
      intro hmem
      exact h6 ((List.erase_sublist D w6.all_elements).subset hmem)
    · rw [if_neg hm]
      exact h6

def c4Default : DElem :=
  ⟨[none, none, none, none, none, none], [], [], none, 0, true⟩

/-- A four-element world: element 0 anchors to its parent 3 and is watched
by observer 1; element 2 is the only child of 0. -/
def c4World : DWorld :=
  ⟨fun j =>
    if j = 0 then ⟨[some 3, none, none, none, none, none], [1], [2], none, 3, true⟩
    else if j = 1 then ⟨[some 0, none, none, none, none, none], [], [], none, 3, true⟩
    else if j = 2 then ⟨[none, none, none, none, none, none], [], [], none, 0, true⟩
    else if j = 3 then ⟨[none, none, none, none, none, none], [0], [0], none, 3, true⟩
    else c4Default,
   [3, 0, 1, 2], [0]⟩

theorem destroy_cleans_witness :
    some 0 ∉ (((destroy 2 c4World 0 false).elems 1).anchors)
    ∧ 0 ∉ (((destroy 2 c4World 0 false).elems 3).anchor_observers)
    ∧ 0 ∉ (destroy 2 c4World 0 false).all_elements
    ∧ 0 ∉ (destroy 2 c4World 0 false).event_callbacks
    ∧ 2 ∉ (destroy 2 c4World 0 false).all_elements := by
  obtain ⟨h1, h2, h3, h4, h5⟩ :=
    destroy_cleans c4World 0 false 2 (by decide) (Or.inl rfl)
      (fun o => by rcases o with _ | _ | _ | _ | k <;> first | decide | exact Nat.zero_le _)
      (fun t => by rcases t with _ | _ | _ | _ | k <;> first | decide | exact Nat.zero_le _)
      (by decide) rfl (by decide)
      (fun x => by rcases x with _ | _ | _ | _ | k <;> first | decide | exact Nat.zero_le _)
      (fun x => by rcases x with _ | _ | _ | _ | k <;> first | decide | exact Nat.zero_le _)
  exact ⟨h1 1, h2 3, h3, h4, h5 2 (by decide)⟩

end Guiscript
